import Mathlib

/-!
# Verification of the inspecta browser pool and two-tier cache subsystem

A shallow embedding, in Lean 4, of the core subsystem of the `inspecta`
repository: the LRU/TTL cache used by `PageCache` (src/analysis/
ConsoleLogCollector.ts, `PageCache` class) and `ResponseCache`
(src/browser/ResponseCache.ts), `BrowserInstance`
(src/browser/BrowserInstance.ts) and the two `BrowserPool` variants
(src/analysis/ConsoleLogCollector.ts).

Modelling conventions:

* Time is an explicit `Nat` parameter (milliseconds); every operation that
  reads `Date.now()` in the source takes the current time as an argument.
* Puppeteer `Page` and `Browser` handles are opaque `Nat` identifiers.
  Operations that cross into the external browser process (launch,
  navigation) take a `Bool` oracle describing the outcome of that external
  call, and return `Except String` mirroring thrown errors.
* A JavaScript `Map` is modelled as an association list in insertion
  order: `set` replaces in place when the key is present and appends
  otherwise, `delete` removes the key, `get` finds the first binding.
* The npm `lru-cache` dependency (as configured by this repository:
  `max`, `ttl`, `updateAgeOnGet: true`) is modelled by `LRUCache` below,
  entries kept in most-recently-used-first order: `get` of a fresh entry
  moves it to the front and (because `updateAgeOnGet` is set) restarts its
  TTL clock; `get` of a stale entry deletes it and reports a miss;
  `set` inserts at the front, replacing in place an existing key, and at
  capacity evicts the least-recently-used (last) entry.
* Log output is ignored; `dispose` callbacks only close the evicted page,
  which has no effect on any state modelled here.
-/

namespace Inspecta

/-! ## Association-list model of a JavaScript `Map` -/

/-- `Map.get`: first binding of the key, if any. -/
def mapGet {β : Type} (l : List (String × β)) (k : String) : Option β :=
  (l.find? (fun e => e.1 == k)).map (·.2)

/-- `Map.set`: replace in place when present, append otherwise. -/
def mapSet {β : Type} (l : List (String × β)) (k : String) (v : β) : List (String × β) :=
  match l with
  | [] => [(k, v)]
  | e :: rest => if e.1 == k then (k, v) :: rest else e :: mapSet rest k v

/-- `Map.delete`: drop every binding of the key. -/
def mapDelete {β : Type} (l : List (String × β)) (k : String) : List (String × β) :=
  l.filter (fun e => e.1 != k)

/-! ## The `lru-cache` dependency, as configured by this repository -/

/-- State of one `LRUCache` instance from the npm `lru-cache` package, as
configured by `PageCache` and `ResponseCache` (`max`, `ttl`,
`updateAgeOnGet: true`).  `entries` is most-recently-used first; the third
component of an entry is the start time of its TTL clock. -/
structure LRUCache (α : Type) where
  max : Nat
  ttl : Nat
  entries : List (String × α × Nat)
deriving Repr, DecidableEq

/-- `lru-cache` staleness test: a TTL of `0` means no expiry, otherwise an
entry is stale once its age strictly exceeds the TTL. -/
def lruIsStale (ttl start now : Nat) : Bool :=
  ttl != 0 && now - start > ttl

/-- Remove every entry under a key. -/
def lruErase {α : Type} (l : List (String × α × Nat)) (k : String) :
    List (String × α × Nat) :=
  l.filter (fun e => e.1 != k)

/-- `LRUCache.get` with `updateAgeOnGet: true`: a miss leaves the cache
unchanged; a stale hit deletes the entry and reports a miss; a fresh hit
moves the entry to the front and restarts its TTL clock. -/
def lruGet {α : Type} (c : LRUCache α) (k : String) (now : Nat) :
    Option α × LRUCache α :=
  match c.entries.find? (fun e => e.1 == k) with
  | none => (none, c)
  | some (_, v, start) =>
    if lruIsStale c.ttl start now then
      (none, { c with entries := lruErase c.entries k })
    else
      (some v, { c with entries := (k, v, now) :: lruErase c.entries k })

/-- `LRUCache.set`: replace in place when the key is present; otherwise
insert at the front, evicting the least-recently-used (last) entry when the
cache is at capacity.  Also returns the evicted entry, if any. -/
def lruSet {α : Type} (c : LRUCache α) (k : String) (v : α) (now : Nat) :
    LRUCache α × Option (String × α × Nat) :=
  if (c.entries.find? (fun e => e.1 == k)).isSome then
    ({ c with entries := (k, v, now) :: lruErase c.entries k }, none)
  else if c.entries.length < c.max then
    ({ c with entries := (k, v, now) :: c.entries }, none)
  else
    match c.entries.getLast? with
    | none => ({ c with entries := [(k, v, now)] }, none)
    | some evicted =>
      ({ c with entries := (k, v, now) :: c.entries.dropLast }, some evicted)

/-- `LRUCache.delete`. -/
def lruDelete {α : Type} (c : LRUCache α) (k : String) : LRUCache α :=
  { c with entries := lruErase c.entries k }

/-- `LRUCache.clear`. -/
def lruClear {α : Type} (c : LRUCache α) : LRUCache α :=
  { c with entries := [] }

/-- `LRUCache.size`. -/
def lruSize {α : Type} (c : LRUCache α) : Nat :=
  c.entries.length

/-! ## URL parsing and `PageCache.normalizeUrl`

`normalizeUrl` calls the WHATWG `new URL(url)` parser and then assembles
`origin + pathname` (lower-cased, one trailing slash stripped) plus the
`search` string verbatim.  The parser below models `new URL` on canonical
http(s)-style URLs: `scheme://host[path][?query][#fragment]` where the
scheme is ASCII letters, the host is non-empty over letters, digits, `.`
and `-`, the path is over letters, digits and `/ - _ ~ .` but with no `.`
directly after a `/` (ruling out the `.`/`..` segments that `new URL`
resolves away), and the query runs up to `#`.  URLs needing dot-segment
resolution, percent-encoding, ports or punycode are outside the modelled
grammar: the parser returns `none` for them even though `new URL` may
accept them, so every theorem about parsed URLs hypothesises parse
success rather than reading anything into a `none`.  As in WHATWG, a missing or empty path reads as `/`, a
lone `?` yields an empty `search`, and the fragment is dropped. -/

/-- Characters the model admits in a host name. -/
def hostChar (c : Char) : Bool :=
  c.isAlphanum || c == '.' || c == '-'

/-- Characters the model admits in a path. -/
def pathChar (c : Char) : Bool :=
  c.isAlphanum || c == '/' || c == '-' || c == '_' || c == '~' || c == '.'

/-- `true` when no `.` directly follows a `/`: every path segment that
starts with a dot is ruled out, in particular the `.` and `..` segments
that `new URL` resolves away (a behaviour this model does not implement). -/
def noSlashDot : List Char → Bool
  | a :: b :: rest => !(a == '/' && b == '.') && noSlashDot (b :: rest)
  | _ => true

/-- Characters the model admits in a query string. -/
def queryChar (c : Char) : Bool :=
  c.isAlphanum || c == '=' || c == '&' || c == '-' || c == '_' || c == '.' || c == '/'

/-- Result of parsing a URL: the components `new URL` exposes that
`normalizeUrl` consumes (`origin` split into scheme and host, `pathname`,
and the query text behind `search`). -/
structure UrlParts where
  scheme : List Char
  host : List Char
  path : List Char
  query : List Char
deriving Repr, DecidableEq

/-- Parse the query-and-fragment tail (everything after the path). -/
def parseQuery (rest : List Char) : Option (List Char) :=
  match rest with
  | [] => some []
  | '?' :: qrest =>
    match qrest.dropWhile queryChar with
    | [] => some (qrest.takeWhile queryChar)
    | '#' :: _ => some (qrest.takeWhile queryChar)
    | _ => none
  | '#' :: _ => some []
  | _ => none

/-- Model of `new URL` on the canonical domain described above; `none`
means the string is outside the modelled grammar: the source would either
throw (taking `normalizeUrl` into its raw-string fallback) or parse a
form this model does not cover, so claims never rely on the `none`
branch. -/
def parseUrl (cs : List Char) : Option UrlParts :=
  match cs.dropWhile (fun c => c != ':') with
  | ':' :: '/' :: '/' :: rest2 =>
    if (cs.takeWhile (fun c => c != ':')).isEmpty
        || !(cs.takeWhile (fun c => c != ':')).all Char.isAlpha then none
    else if (rest2.takeWhile hostChar).isEmpty then none
    else
      match rest2.dropWhile hostChar with
      | [] =>
        some ⟨cs.takeWhile (fun c => c != ':'), rest2.takeWhile hostChar, ['/'], []⟩
      | '/' :: r =>
        if noSlashDot (('/' :: r).takeWhile pathChar) then
          (parseQuery (('/' :: r).dropWhile pathChar)).map
            (fun q => ⟨cs.takeWhile (fun c => c != ':'), rest2.takeWhile hostChar,
              ('/' :: r).takeWhile pathChar, q⟩)
        else none
      | '?' :: r =>
        (parseQuery ('?' :: r)).map
          (fun q => ⟨cs.takeWhile (fun c => c != ':'), rest2.takeWhile hostChar,
            ['/'], q⟩)
      | '#' :: _ =>
        some ⟨cs.takeWhile (fun c => c != ':'), rest2.takeWhile hostChar, ['/'], []⟩
      | _ => none
  | _ => none

/-- ASCII lower-casing of one character, as `toLowerCase` acts on the
modelled character set (`Char.toLower` of core Lean). -/
def lowerChar (c : Char) : Char :=
  Char.toLower c

/-- Lower-case a string given as a character list. -/
def lowerStr (cs : List Char) : List Char :=
  cs.map lowerChar

/-- Strip a single trailing slash (`normalized.endsWith('/') ?
normalized.slice(0, -1) : normalized`). -/
def stripSlash (cs : List Char) : List Char :=
  if cs.getLast? = some '/' then cs.dropLast else cs

/-- `PageCache.normalizeUrl` on character lists: parse; on success
lower-case `origin + pathname`, strip one trailing slash, and append the
`search` string verbatim when non-empty; on parse failure fall back to the
raw input.  The fallback models the source's `catch` branch; strings the
model cannot parse but `new URL` can also land there, which is why the
idempotence theorem is conditioned on parse success via `goodPath`. -/
def normalizeUrlCs (cs : List Char) : List Char :=
  match parseUrl cs with
  | none => cs
  | some p =>
    if p.query.isEmpty then
      stripSlash (lowerStr (p.scheme ++ [':', '/', '/'] ++ p.host ++ p.path))
    else
      stripSlash (lowerStr (p.scheme ++ [':', '/', '/'] ++ p.host ++ p.path)) ++
        '?' :: p.query

/-- `PageCache.normalizeUrl`. -/
def normalizeUrl (url : String) : String :=
  ⟨normalizeUrlCs url.data⟩

/-- Domain restriction under which `normalizeUrl` is idempotent: the input
parses in the modelled grammar and the parsed path does not still end in
`/` after one trailing slash has been stripped (i.e. the path does not end
in `//`).  Strings the model cannot parse are excluded outright — for
those the modelled fallback need not agree with `new URL`, so nothing is
claimed about them. -/
def goodPath (cs : List Char) : Bool :=
  match parseUrl cs with
  | some p => !((stripSlash p.path).getLast? == some '/')
  | none => false

/-! ## `PageCache` (src/analysis/ConsoleLogCollector.ts) -/

/-- A `PageCacheEntry`: page handle, original URL, last-access time and the
owning browser/page ids. -/
structure PageCacheEntry where
  page : Nat
  url : String
  lastAccessed : Nat
  browserId : String
  pageId : String
deriving Repr, DecidableEq

/-- `PageCache` state: just its `LRUCache` (constructed with
`max = maxPageCacheSize`, `ttl = pageCacheTTL`, `updateAgeOnGet: true`).
The periodic `checkAndCleanupCache` task has an empty body in the source
and is not modelled. -/
structure PageCache where
  cache : LRUCache PageCacheEntry
deriving Repr, DecidableEq

/-- A fresh `PageCache` with the configured capacity and TTL. -/
def PageCache.mk' (max ttl : Nat) : PageCache :=
  ⟨⟨max, ttl, []⟩⟩

/-- `PageCache.addPage`: store the entry under the normalized key with
`lastAccessed = Date.now()`.  Returns the cache key, the new state, and the
entry evicted by the underlying `LRUCache.set`, if any. -/
def PageCache.addPage (pc : PageCache) (url : String) (page : Nat)
    (browserId pageId : String) (now : Nat) :
    String × PageCache × Option (String × PageCacheEntry × Nat) :=
  let cacheKey := normalizeUrl url
  let r := lruSet pc.cache cacheKey ⟨page, url, now, browserId, pageId⟩ now
  (cacheKey, ⟨r.1⟩, r.2)

/-- `PageCache.getPage`: `cache.get` under the normalized key (so a stale
entry is deleted and reported absent, and a fresh hit is moved to the
front with its TTL clock restarted), then `entry.lastAccessed = Date.now()`
mutates the stored entry on a hit. -/
def PageCache.getPage (pc : PageCache) (url : String) (now : Nat) :
    Option PageCacheEntry × PageCache :=
  match pc.cache.entries.find? (fun e => e.1 == normalizeUrl url) with
  | none => (none, pc)
  | some (_, v, start) =>
    if lruIsStale pc.cache.ttl start now then
      (none, ⟨{ pc.cache with entries := lruErase pc.cache.entries (normalizeUrl url) }⟩)
    else
      (some { v with lastAccessed := now },
       ⟨{ pc.cache with entries := ((normalizeUrl url, { v with lastAccessed := now }, now) :: lruErase pc.cache.entries (normalizeUrl url)) }⟩)

/-- `PageCache.removePage`. -/
def PageCache.removePage (pc : PageCache) (url : String) : PageCache :=
  ⟨lruDelete pc.cache (normalizeUrl url)⟩

/-- `PageCache.clear` (also the state effect of `PageCache.shutdown`). -/
def PageCache.clear (pc : PageCache) : PageCache :=
  ⟨lruClear pc.cache⟩

/-- `PageCache.getSize`. -/
def PageCache.getSize (pc : PageCache) : Nat :=
  lruSize pc.cache

/-! ## `ResponseCache` (src/browser/ResponseCache.ts)

Keys are modelled as the strings the `createKey` helper produces; for a
string-typed caller key `createKey` is the identity, and the structured-key
branch (sorted-field JSON plus MD5) only determines which opaque string is
used, so claims quantifying over keys quantify over the resulting string. -/

/-- A `ResponseCacheEntry<T>`. -/
structure ResponseCacheEntry (α : Type) where
  data : α
  timestamp : Nat
  expiresAt : Nat
deriving Repr, DecidableEq

/-- `ResponseCache` state: enabled flag plus its `LRUCache` (constructed
with `max = responseCache.maxSize`, `ttl = responseCache.ttl`,
`updateAgeOnGet: true`).  The configured `responseCache.ttl` read by `set`
is the same value the `LRUCache` was constructed with, so it is read back
from `cache.ttl`. -/
structure ResponseCache (α : Type) where
  enabled : Bool
  cache : LRUCache (ResponseCacheEntry α)
deriving Repr, DecidableEq

/-- The TTL `ResponseCache.set` applies: `ttl || config.cache.responseCache.ttl`
(note JavaScript `||`: an explicit `0` falls back to the configured TTL). -/
def ResponseCache.effTtl {α : Type} (rc : ResponseCache α) (ttl : Option Nat) : Nat :=
  match ttl with
  | some t => if t = 0 then rc.cache.ttl else t
  | none => rc.cache.ttl

/-- `ResponseCache.get`: absent while disabled; otherwise a `cache.get`
followed by the explicit `expiresAt` check, deleting and reporting absent
when `Date.now() > entry.expiresAt`. -/
def ResponseCache.get {α : Type} (rc : ResponseCache α) (key : String) (now : Nat) :
    Option α × ResponseCache α :=
  if !rc.enabled then (none, rc)
  else
    let r := lruGet rc.cache key now
    match r.1 with
    | none => (none, { rc with cache := r.2 })
    | some entry =>
      if now > entry.expiresAt then
        (none, { rc with cache := lruDelete r.2 key })
      else
        (some entry.data, { rc with cache := r.2 })

/-- `ResponseCache.set`: no-op while disabled (still returning the key);
otherwise store the entry with `expiresAt = Date.now() + (ttl || configured)`. -/
def ResponseCache.set {α : Type} (rc : ResponseCache α) (key : String) (data : α)
    (ttl : Option Nat) (now : Nat) : String × ResponseCache α :=
  if !rc.enabled then (key, rc)
  else
    let expiresAt := now + rc.effTtl ttl
    let r := lruSet rc.cache key ⟨data, now, expiresAt⟩ now
    (key, { rc with cache := r.1 })

/-- `ResponseCache.remove`. -/
def ResponseCache.remove {α : Type} (rc : ResponseCache α) (key : String) :
    ResponseCache α :=
  if !rc.enabled then rc else { rc with cache := lruDelete rc.cache key }

/-- `ResponseCache.has`: false while disabled; otherwise a `cache.get`
followed by `Date.now() <= entry.expiresAt`. -/
def ResponseCache.has {α : Type} (rc : ResponseCache α) (key : String) (now : Nat) :
    Bool × ResponseCache α :=
  if !rc.enabled then (false, rc)
  else
    let r := lruGet rc.cache key now
    match r.1 with
    | none => (false, { rc with cache := r.2 })
    | some entry => (decide (now ≤ entry.expiresAt), { rc with cache := r.2 })

/-- `ResponseCache.clear`. -/
def ResponseCache.clear {α : Type} (rc : ResponseCache α) : ResponseCache α :=
  { rc with cache := lruClear rc.cache }

/-- `ResponseCache.getSize`. -/
def ResponseCache.getSize {α : Type} (rc : ResponseCache α) : Nat :=
  lruSize rc.cache

/-- `ResponseCache.setEnabled`. -/
def ResponseCache.setEnabled {α : Type} (rc : ResponseCache α) (enabled : Bool) :
    ResponseCache α :=
  { rc with enabled := enabled }

/-- `ResponseCache.getOrExecute`: the pure computation `fn` is represented
by the value `fnResult` it would produce; the third component of the result
counts how many times the code path invokes `fn`.  Disabled: invoke and
return, the store untouched.  Enabled: return a hit verbatim without
invoking; on a miss invoke once, `set` the result, and return it. -/
def ResponseCache.getOrExecute {α : Type} (rc : ResponseCache α) (key : String)
    (fnResult : α) (ttl : Option Nat) (now : Nat) : α × ResponseCache α × Nat :=
  if !rc.enabled then (fnResult, rc, 1)
  else
    let r := rc.get key now
    match r.1 with
    | some cached => (cached, r.2, 0)
    | none => (fnResult, (r.2.set key fnResult ttl now).2, 1)

/-! ## `BrowserInstance` (src/browser/BrowserInstance.ts) -/

/-- One Puppeteer browser process wrapper: nullable browser handle, map of
pageId to page handle, last-used timestamp. -/
structure BrowserInstance where
  browser : Option Nat
  pages : List (String × Nat)
  lastUsed : Nat
deriving Repr, DecidableEq

/-- `new BrowserInstance()`: no browser yet, no pages,
`lastUsed = Date.now()`. -/
def BrowserInstance.new (now : Nat) : BrowserInstance :=
  ⟨none, [], now⟩

/-- `BrowserInstance.initialize`: idempotent launch.  `launchOk` is the
outcome of the external `puppeteer.launch` call and `freshBrowser` the
handle it would return; a failed launch throws and leaves the instance
without a browser. -/
def BrowserInstance.initialize (inst : BrowserInstance) (launchOk : Bool)
    (freshBrowser : Nat) : Except String BrowserInstance :=
  if inst.browser.isSome then .ok inst
  else if launchOk then .ok { inst with browser := some freshBrowser }
  else .error "Failed to initialize browser instance"

/-- `BrowserInstance.closePage`: delete the page from the map if present;
errors from the underlying `page.close()` are swallowed. -/
def BrowserInstance.closePage (inst : BrowserInstance) (pageId : String) :
    BrowserInstance :=
  match mapGet inst.pages pageId with
  | some _ => { inst with pages := mapDelete inst.pages pageId }
  | none => inst

/-- `BrowserInstance.createPage`: update `lastUsed`, ensure the browser is
launched (propagating a launch failure), close any stale page under the
same id, create a new page (`freshPage` is the handle `newPage` returns)
and register it. -/
def BrowserInstance.createPage (inst : BrowserInstance) (pageId : String)
    (now : Nat) (launchOk : Bool) (freshBrowser freshPage : Nat) :
    Except String Nat × BrowserInstance :=
  let inst1 := { inst with lastUsed := now }
  match inst1.initialize launchOk freshBrowser with
  | .error e => (.error e, inst1)
  | .ok inst2 =>
    let inst3 := inst2.closePage pageId
    (.ok freshPage, { inst3 with pages := mapSet inst3.pages pageId freshPage })

/-- `BrowserInstance.getPage`: update `lastUsed`, return the existing page
for the id, else create one. -/
def BrowserInstance.getPage (inst : BrowserInstance) (pageId : String)
    (now : Nat) (launchOk : Bool) (freshBrowser freshPage : Nat) :
    Except String Nat × BrowserInstance :=
  let inst1 := { inst with lastUsed := now }
  match mapGet inst1.pages pageId with
  | some p => (.ok p, inst1)
  | none => inst1.createPage pageId now launchOk freshBrowser freshPage

/-- `BrowserInstance.close`: when a browser is held, close every page and
the browser, resetting to inactive; a `null` browser means no effect. -/
def BrowserInstance.close (inst : BrowserInstance) : BrowserInstance :=
  if inst.browser.isSome then { inst with pages := [], browser := none } else inst

/-- `BrowserInstance.isActive`. -/
def BrowserInstance.isActive (inst : BrowserInstance) : Bool :=
  inst.browser.isSome

/-- `BrowserInstance.getLastUsed`. -/
def BrowserInstance.getLastUsed (inst : BrowserInstance) : Nat :=
  inst.lastUsed

/-- `BrowserInstance.getPageCount`. -/
def BrowserInstance.getPageCount (inst : BrowserInstance) : Nat :=
  inst.pages.length

/-! ## `BrowserPool`, caching variant
(src/analysis/ConsoleLogCollector.ts, lines 294-515) -/

/-- The hard-coded idle timeout of `cleanupIdleBrowsers` (5 minutes). -/
def idleTimeoutMs : Nat := 5 * 60 * 1000

/-- The caching `BrowserPool`: registry of `BrowserInstance`s keyed by
browser id, plus the composed `PageCache` (`none` when page caching is
disabled by configuration). -/
structure BrowserPool where
  browserInstances : List (String × BrowserInstance)
  pageCache : Option PageCache
deriving Repr, DecidableEq

/-- `BrowserPool.getBrowserInstance`: get-or-create; a created instance is
registered immediately. -/
def BrowserPool.getBrowserInstance (p : BrowserPool) (browserId : String)
    (now : Nat) : BrowserInstance × BrowserPool :=
  match mapGet p.browserInstances browserId with
  | some inst => (inst, p)
  | none =>
    let inst := BrowserInstance.new now
    (inst, { p with browserInstances := mapSet p.browserInstances browserId inst })

/-- `BrowserPool.getPage`: delegate to the instance's `getPage`; the
instance object is mutated in place, so its new state is written back into
the registry whether or not the call threw. -/
def BrowserPool.getPage (p : BrowserPool) (browserId pageId : String)
    (now : Nat) (launchOk : Bool) (freshBrowser freshPage : Nat) :
    Except String Nat × BrowserPool :=
  let r0 := p.getBrowserInstance browserId now
  let r := r0.1.getPage pageId now launchOk freshBrowser freshPage
  (r.1, { r0.2 with browserInstances := mapSet r0.2.browserInstances browserId r.2 })

/-- `BrowserPool.closeBrowserInstance`: close the instance (if present) and
remove it from the registry. -/
def BrowserPool.closeBrowserInstance (p : BrowserPool) (browserId : String) :
    BrowserPool :=
  match mapGet p.browserInstances browserId with
  | none => p
  | some _ => { p with browserInstances := mapDelete p.browserInstances browserId }

/-- `BrowserPool.closePage`: delegate to the owning instance; if its page
count dropped to zero, close the instance itself. -/
def BrowserPool.closePage (p : BrowserPool) (browserId pageId : String) :
    BrowserPool :=
  match mapGet p.browserInstances browserId with
  | none => p
  | some inst =>
    let inst2 := inst.closePage pageId
    let p1 := { p with browserInstances := mapSet p.browserInstances browserId inst2 }
    if inst2.getPageCount = 0 then p1.closeBrowserInstance browserId else p1

/-- One iteration of the `cleanupIdleBrowsers` loop: look the id up in the
registry and, when the instance is active and idle beyond `idleTimeoutMs`,
close and remove it. -/
def sweepStep (now : Nat) (acc : BrowserPool) (browserId : String) : BrowserPool :=
  match mapGet acc.browserInstances browserId with
  | some inst =>
    if inst.isActive && now - inst.getLastUsed > idleTimeoutMs then
      acc.closeBrowserInstance browserId
    else acc
  | none => acc

/-- `BrowserPool.cleanupIdleBrowsers`: snapshot the registry's keys and run
the sweep step over each of them. -/
def BrowserPool.cleanupIdleBrowsers (p : BrowserPool) (now : Nat) : BrowserPool :=
  let browserIds := p.browserInstances.map (·.1)
  browserIds.foldl (sweepStep now) p

/-- `BrowserPool.getBrowserCount`. -/
def BrowserPool.getBrowserCount (p : BrowserPool) : Nat :=
  p.browserInstances.length

/-- `BrowserPool.getCachedPageCount`. -/
def BrowserPool.getCachedPageCount (p : BrowserPool) : Nat :=
  match p.pageCache with
  | some pc => pc.getSize
  | none => 0

/-- `BrowserPool.canCreateNewBrowser`:
`browserInstances.size < config.browser.maxInstances`. -/
def BrowserPool.canCreateNewBrowser (p : BrowserPool) (maxInstances : Nat) : Bool :=
  p.browserInstances.length < maxInstances

/-- The miss path of `BrowserPool.getPageForUrl`: obtain a page via the
registry, navigate (`gotoOk` is the outcome of `page.goto`, which throws on
failure), and only after a successful navigation register the page in the
`PageCache` (when caching is enabled and not bypassed). -/
def BrowserPool.fetchPageForUrl (p : BrowserPool) (browserId pageId url : String)
    (now : Nat) (bypassCache : Bool) (launchOk : Bool)
    (freshBrowser freshPage : Nat) (gotoOk : Bool) :
    Except String Nat × BrowserPool :=
  let r0 := p.getBrowserInstance browserId now
  let r := r0.1.getPage pageId now launchOk freshBrowser freshPage
  let p2 := { r0.2 with browserInstances := mapSet r0.2.browserInstances browserId r.2 }
  match r.1 with
  | .error e => (.error e, p2)
  | .ok page =>
    if gotoOk then
      match p2.pageCache, bypassCache with
      | some pc, false =>
        (.ok page, { p2 with pageCache := some (pc.addPage url page browserId pageId now).2.1 })
      | _, _ => (.ok page, p2)
    else (.error "Navigation failed", p2)

/-- `BrowserPool.getPageForUrl`: when caching is enabled and not bypassed,
consult the `PageCache` first and return a hit directly (no navigation);
otherwise fall through to the miss path. -/
def BrowserPool.getPageForUrl (p : BrowserPool) (browserId pageId url : String)
    (now : Nat) (bypassCache : Bool) (launchOk : Bool)
    (freshBrowser freshPage : Nat) (gotoOk : Bool) :
    Except String Nat × BrowserPool :=
  match p.pageCache, bypassCache with
  | some pc, false =>
    let r := pc.getPage url now
    match r.1 with
    | some entry => (.ok entry.page, { p with pageCache := some r.2 })
    | none =>
      BrowserPool.fetchPageForUrl { p with pageCache := some r.2 }
        browserId pageId url now bypassCache launchOk freshBrowser freshPage gotoOk
  | _, _ =>
    BrowserPool.fetchPageForUrl p browserId pageId url now bypassCache launchOk
      freshBrowser freshPage gotoOk

/-- `BrowserPool.closeAll`: stop the sweep timer, shut down the page cache
when present, close every instance, clear the registry. -/
def BrowserPool.closeAll (p : BrowserPool) : BrowserPool :=
  let pc := match p.pageCache with
    | some c => some c.clear
    | none => none
  let browserIds := p.browserInstances.map (·.1)
  let p1 := browserIds.foldl (fun acc browserId => acc.closeBrowserInstance browserId)
    { p with pageCache := pc }
  { p1 with browserInstances := [] }

/-! ## `BrowserPool`, non-caching variant
(src/analysis/ConsoleLogCollector.ts, lines 523-646) -/

/-- The second, non-caching `BrowserPool` class: registry only. -/
structure BrowserPoolPlain where
  browserInstances : List (String × BrowserInstance)
deriving Repr, DecidableEq

/-- Non-caching `getBrowserInstance`. -/
def BrowserPoolPlain.getBrowserInstance (p : BrowserPoolPlain) (browserId : String)
    (now : Nat) : BrowserInstance × BrowserPoolPlain :=
  match mapGet p.browserInstances browserId with
  | some inst => (inst, p)
  | none =>
    let inst := BrowserInstance.new now
    (inst, { p with browserInstances := mapSet p.browserInstances browserId inst })

/-- Non-caching `getPage`. -/
def BrowserPoolPlain.getPage (p : BrowserPoolPlain) (browserId pageId : String)
    (now : Nat) (launchOk : Bool) (freshBrowser freshPage : Nat) :
    Except String Nat × BrowserPoolPlain :=
  let r0 := p.getBrowserInstance browserId now
  let r := r0.1.getPage pageId now launchOk freshBrowser freshPage
  (r.1, { r0.2 with browserInstances := mapSet r0.2.browserInstances browserId r.2 })

/-- Non-caching `closeBrowserInstance`. -/
def BrowserPoolPlain.closeBrowserInstance (p : BrowserPoolPlain)
    (browserId : String) : BrowserPoolPlain :=
  match mapGet p.browserInstances browserId with
  | none => p
  | some _ => { p with browserInstances := mapDelete p.browserInstances browserId }

/-- Non-caching `closePage`. -/
def BrowserPoolPlain.closePage (p : BrowserPoolPlain) (browserId pageId : String) :
    BrowserPoolPlain :=
  match mapGet p.browserInstances browserId with
  | none => p
  | some inst =>
    let inst2 := inst.closePage pageId
    let p1 := { p with browserInstances := mapSet p.browserInstances browserId inst2 }
    if inst2.getPageCount = 0 then p1.closeBrowserInstance browserId else p1

/-- Non-caching `getBrowserCount`. -/
def BrowserPoolPlain.getBrowserCount (p : BrowserPoolPlain) : Nat :=
  p.browserInstances.length

/-- Non-caching `canCreateNewBrowser`. -/
def BrowserPoolPlain.canCreateNewBrowser (p : BrowserPoolPlain)
    (maxInstances : Nat) : Bool :=
  p.browserInstances.length < maxInstances

/-- Non-caching `closeAll`. -/
def BrowserPoolPlain.closeAll (p : BrowserPoolPlain) : BrowserPoolPlain :=
  let browserIds := p.browserInstances.map (·.1)
  let p1 := browserIds.foldl (fun acc browserId => acc.closeBrowserInstance browserId) p
  { p1 with browserInstances := [] }

/-! ## Traces -/

/-- One `PageCache` operation of an access trace. -/
inductive PCOp where
  | add (url : String) (page : Nat) (browserId pageId : String)
  | lookup (url : String)
deriving Repr, DecidableEq

/-- Run a timestamped trace of `addPage`/`getPage` calls against a
`PageCache`.  Besides the final state, collect an eviction log: for every
`addPage` that evicted an entry, the cache's entry list just before that
call together with the evicted entry. -/
def runPageCache (pc : PageCache) :
    List (PCOp × Nat) →
    PageCache × List (List (String × PageCacheEntry × Nat) × (String × PageCacheEntry × Nat))
  | [] => (pc, [])
  | (.add url page browserId pageId, t) :: rest =>
    let r := pc.addPage url page browserId pageId t
    let rr := runPageCache r.2.1 rest
    match r.2.2 with
    | some ev => (rr.1, (pc.cache.entries, ev) :: rr.2)
    | none => rr
  | (.lookup url, t) :: rest =>
    runPageCache (pc.getPage url t).2 rest

/-- One operation of the interface shared by the two `BrowserPool`
variants.  The observers `getBrowserCount` and `canCreateNewBrowser` are
functions of the resulting state and are compared on it directly. -/
inductive PoolOp where
  | getPage (browserId pageId : String) (now : Nat) (launchOk : Bool)
      (freshBrowser freshPage : Nat)
  | closePage (browserId pageId : String)
  | closeBrowserInstance (browserId : String)
  | closeAll
deriving Repr, DecidableEq

/-- Run a trace of shared operations against the caching pool, collecting
the `getPage` results. -/
def runPool (p : BrowserPool) : List PoolOp → BrowserPool × List (Except String Nat)
  | [] => (p, [])
  | .getPage browserId pageId now launchOk freshBrowser freshPage :: rest =>
    let r := p.getPage browserId pageId now launchOk freshBrowser freshPage
    let rr := runPool r.2 rest
    (rr.1, r.1 :: rr.2)
  | .closePage browserId pageId :: rest => runPool (p.closePage browserId pageId) rest
  | .closeBrowserInstance browserId :: rest =>
    runPool (p.closeBrowserInstance browserId) rest
  | .closeAll :: rest => runPool p.closeAll rest

/-- Run a trace of shared operations against the non-caching pool. -/
def runPoolPlain (p : BrowserPoolPlain) :
    List PoolOp → BrowserPoolPlain × List (Except String Nat)
  | [] => (p, [])
  | .getPage browserId pageId now launchOk freshBrowser freshPage :: rest =>
    let r := p.getPage browserId pageId now launchOk freshBrowser freshPage
    let rr := runPoolPlain r.2 rest
    (rr.1, r.1 :: rr.2)
  | .closePage browserId pageId :: rest => runPoolPlain (p.closePage browserId pageId) rest
  | .closeBrowserInstance browserId :: rest =>
    runPoolPlain (p.closeBrowserInstance browserId) rest
  | .closeAll :: rest => runPoolPlain p.closeAll rest

/-! ## Lemmas about the association-list map model -/

/-- Keys of an association list are pairwise distinct. -/
def keysNodup {β : Type} (l : List (String × β)) : Prop :=
  l.Pairwise (fun a b => a.1 ≠ b.1)

theorem mapGet_nil {β : Type} (k : String) : mapGet ([] : List (String × β)) k = none :=
  rfl

theorem mapGet_cons {β : Type} (e : String × β) (rest : List (String × β)) (k : String) :
    mapGet (e :: rest) k = if e.1 == k then some e.2 else mapGet rest k := by
  by_cases he : e.1 == k <;> simp [mapGet, List.find?_cons, he]

theorem mapGet_mapSet_self {β : Type} (l : List (String × β)) (k : String) (v : β) :
    mapGet (mapSet l k v) k = some v := by
  induction l with
  | nil => simp [mapSet, mapGet_cons]
  | cons e rest ih =>
    by_cases he : e.1 == k
    · simp [mapSet, he, mapGet_cons]
    · simp [mapSet, he, mapGet_cons, ih]

theorem length_mapSet_mem {β : Type} {l : List (String × β)} {k : String} (v : β)
    (h : (mapGet l k).isSome) : (mapSet l k v).length = l.length := by
  induction l with
  | nil => simp [mapGet] at h
  | cons e rest ih =>
    by_cases he : e.1 == k
    · simp [mapSet, he]
    · rw [mapGet_cons, if_neg he] at h
      simp [mapSet, he, ih h]

theorem length_mapSet_not_mem {β : Type} {l : List (String × β)} {k : String} (v : β)
    (h : mapGet l k = none) : (mapSet l k v).length = l.length + 1 := by
  induction l with
  | nil => simp [mapSet]
  | cons e rest ih =>
    rw [mapGet_cons] at h
    by_cases he : e.1 == k
    · simp [he] at h
    · rw [if_neg (by simp [he])] at h
      simp [mapSet, he, ih h]

theorem mem_mapSet {β : Type} {l : List (String × β)} {k : String} {v : β}
    {x : String × β} (hx : x ∈ mapSet l k v) : x ∈ l ∨ x = (k, v) := by
  induction l with
  | nil => simp [mapSet] at hx; right; exact hx
  | cons e rest ih =>
    by_cases he : e.1 == k
    · simp only [mapSet, he, if_true, List.mem_cons] at hx
      rcases hx with h | h
      · right; exact h
      · left; exact List.mem_cons_of_mem _ h
    · simp only [mapSet, he, Bool.false_eq_true, if_false, List.mem_cons] at hx
      rcases hx with h | h
      · left; exact h ▸ List.mem_cons_self e rest
      · rcases ih h with h2 | h2
        · left; exact List.mem_cons_of_mem _ h2
        · right; exact h2

theorem mapDelete_cons {β : Type} (e : String × β) (rest : List (String × β)) (k : String) :
    mapDelete (e :: rest) k =
      if e.1 == k then mapDelete rest k else e :: mapDelete rest k := by
  unfold mapDelete
  rw [List.filter_cons]
  by_cases he : e.1 == k
  · have hb : (e.1 != k) = false := by simp [bne, he]
    rw [hb, if_pos he]
    simp
  · have hb : (e.1 != k) = true := by simp [bne, he]
    rw [hb, if_neg he]
    simp

theorem mapGet_mapDelete_self {β : Type} (l : List (String × β)) (k : String) :
    mapGet (mapDelete l k) k = none := by
  induction l with
  | nil => rfl
  | cons e rest ih =>
    rw [mapDelete_cons]
    by_cases he : e.1 == k
    · simpa [he] using ih
    · rw [if_neg he, mapGet_cons, if_neg he]
      exact ih

theorem mapGet_mapDelete_ne {β : Type} (l : List (String × β)) (k k' : String)
    (h : k' ≠ k) : mapGet (mapDelete l k) k' = mapGet l k' := by
  induction l with
  | nil => rfl
  | cons e rest ih =>
    rw [mapDelete_cons]
    by_cases he : e.1 == k
    · have he' : (e.1 == k') = false := by
        rw [beq_iff_eq] at he
        simp only [beq_eq_false_iff_ne, ne_eq, he]
        exact fun hc => h hc.symm
      rw [if_pos he, mapGet_cons e rest k', he']
      simpa using ih
    · rw [if_neg he, mapGet_cons, mapGet_cons]
      by_cases he2 : e.1 == k'
      · rw [if_pos he2, if_pos he2]
      · rw [if_neg he2, if_neg he2]
        exact ih

theorem mapGet_of_mem_nodup {β : Type} {l : List (String × β)} {k : String} {v : β}
    (hnd : keysNodup l) (hm : (k, v) ∈ l) : mapGet l k = some v := by
  induction l with
  | nil => simp at hm
  | cons e rest ih =>
    rw [keysNodup, List.pairwise_cons] at hnd
    rcases List.mem_cons.mp hm with h | h
    · subst h
      simp [mapGet_cons]
    · have hne : (e.1 == k) = false := by
        simp only [beq_eq_false_iff_ne, ne_eq]
        exact fun hc => hnd.1 (k, v) h hc
      rw [mapGet_cons, hne]
      simpa using ih hnd.2 h

theorem length_mapDelete_nodup {β : Type} {l : List (String × β)} {k : String} {v : β}
    (hnd : keysNodup l) (hget : mapGet l k = some v) :
    (mapDelete l k).length + 1 = l.length := by
  induction l with
  | nil => simp [mapGet] at hget
  | cons e rest ih =>
    rw [keysNodup, List.pairwise_cons] at hnd
    rw [mapDelete_cons]
    by_cases he : e.1 == k
    · have hrest : mapDelete rest k = rest := by
        unfold mapDelete
        apply List.filter_eq_self.mpr
        intro x hx
        simp only [bne_iff_ne, ne_eq, decide_eq_true_eq]
        intro hc
        exact hnd.1 x hx (by rw [hc]; exact beq_iff_eq.mp he)
      rw [if_pos he, hrest]
      simp
    · rw [mapGet_cons, if_neg he] at hget
      rw [if_neg he]
      simp only [List.length_cons]
      rw [← ih hnd.2 hget]

theorem keysNodup_mapSet {β : Type} {l : List (String × β)} (k : String) (v : β)
    (hnd : keysNodup l) : keysNodup (mapSet l k v) := by
  induction l with
  | nil => simp [mapSet, keysNodup]
  | cons e rest ih =>
    rw [keysNodup, List.pairwise_cons] at hnd
    by_cases he : e.1 == k
    · simp only [mapSet, he, if_true]
      rw [keysNodup, List.pairwise_cons]
      refine ⟨?_, hnd.2⟩
      intro b hb
      have := hnd.1 b hb
      rw [beq_iff_eq] at he
      rw [← he]
      exact this
    · simp only [mapSet, he, Bool.false_eq_true, if_false]
      rw [keysNodup, List.pairwise_cons]
      refine ⟨?_, ih hnd.2⟩
      intro b hb
      rcases mem_mapSet hb with h | h
      · exact hnd.1 b h
      · subst h
        simpa using he

theorem keysNodup_mapDelete {β : Type} {l : List (String × β)} (k : String)
    (hnd : keysNodup l) : keysNodup (mapDelete l k) :=
  List.Pairwise.sublist (List.filter_sublist l) hnd

theorem mapDelete_subset {β : Type} {l : List (String × β)} {k : String}
    {x : String × β} (hx : x ∈ mapDelete l k) : x ∈ l :=
  (List.mem_filter.mp hx).1

/-! ## Lemmas about the LRU cache model -/

theorem lruErase_sublist {α : Type} (l : List (String × α × Nat)) (k : String) :
    (lruErase l k).Sublist l :=
  List.filter_sublist l

theorem lruSet_ttl {α : Type} (c : LRUCache α) (k : String) (v : α) (now : Nat) :
    (lruSet c k v now).1.ttl = c.ttl := by
  unfold lruSet
  split_ifs <;> try rfl
  cases c.entries.getLast? <;> rfl

theorem lruSet_max {α : Type} (c : LRUCache α) (k : String) (v : α) (now : Nat) :
    (lruSet c k v now).1.max = c.max := by
  unfold lruSet
  split_ifs <;> try rfl
  cases c.entries.getLast? <;> rfl

theorem lruSet_find_self {α : Type} (c : LRUCache α) (k : String) (v : α) (now : Nat) :
    (lruSet c k v now).1.entries.find? (fun e => e.1 == k) = some (k, v, now) := by
  unfold lruSet
  split_ifs <;> try simp [List.find?_cons]
  cases c.entries.getLast? <;> simp [List.find?_cons]

/-! ## Lemmas about the idle-reclamation sweep -/

theorem not_mem_mapDelete_key {β : Type} {l : List (String × β)} {k : String}
    {x : String × β} (hx : x ∈ l) (hn : x ∉ mapDelete l k) : x.1 = k := by
  by_contra hne
  exact hn (List.mem_filter.mpr ⟨hx, by simpa [bne] using hne⟩)

theorem mem_mapDelete_ne_key {β : Type} {l : List (String × β)} {k : String}
    {x : String × β} (hx : x ∈ mapDelete l k) : x.1 ≠ k := by
  have := (List.mem_filter.mp hx).2
  simpa [bne] using this

/-- Reduce the sweep step once the registry lookup is known. -/
theorem sweepStep_some (now : Nat) (acc : BrowserPool) (browserId : String)
    (inst : BrowserInstance)
    (hm : mapGet acc.browserInstances browserId = some inst) :
    sweepStep now acc browserId =
      if inst.isActive && decide (now - inst.getLastUsed > idleTimeoutMs) then
        acc.closeBrowserInstance browserId
      else acc := by
  unfold sweepStep
  rw [hm]

/-- Either the sweep step does nothing, or the instance under the id is
active and over the idle timeout and the step deletes exactly that id. -/
theorem sweepStep_eq (now : Nat) (acc : BrowserPool) (browserId : String) :
    sweepStep now acc browserId = acc ∨
    ((∃ inst, mapGet acc.browserInstances browserId = some inst ∧
        inst.isActive = true ∧ now - inst.getLastUsed > idleTimeoutMs) ∧
      sweepStep now acc browserId =
        { acc with browserInstances := mapDelete acc.browserInstances browserId }) := by
  cases hm : mapGet acc.browserInstances browserId with
  | none =>
    left
    unfold sweepStep
    rw [hm]
  | some inst =>
    rw [sweepStep_some now acc browserId inst hm]
    by_cases hg : (inst.isActive && decide (now - inst.getLastUsed > idleTimeoutMs)) = true
    · right
      have hg2 := hg
      simp only [Bool.and_eq_true, decide_eq_true_eq] at hg2
      refine ⟨⟨inst, rfl, hg2.1, hg2.2⟩, ?_⟩
      rw [if_pos hg]
      unfold BrowserPool.closeBrowserInstance
      rw [hm]
    · left
      rw [if_neg hg]

theorem sweepStep_sub {now : Nat} {acc : BrowserPool} {browserId : String}
    {x : String × BrowserInstance}
    (hx : x ∈ (sweepStep now acc browserId).browserInstances) :
    x ∈ acc.browserInstances := by
  rcases sweepStep_eq now acc browserId with h | ⟨_, h⟩
  · rwa [h] at hx
  · rw [h] at hx
    exact mapDelete_subset hx

theorem sweepStep_nodup {now : Nat} {acc : BrowserPool} {browserId : String}
    (hnd : keysNodup acc.browserInstances) :
    keysNodup (sweepStep now acc browserId).browserInstances := by
  rcases sweepStep_eq now acc browserId with h | ⟨_, h⟩
  · rwa [h]
  · rw [h]
    exact keysNodup_mapDelete _ hnd

theorem sweepFold_sub {now : Nat} :
    ∀ (ids : List String) (acc : BrowserPool) (x : String × BrowserInstance),
      x ∈ (ids.foldl (sweepStep now) acc).browserInstances → x ∈ acc.browserInstances := by
  intro ids
  induction ids with
  | nil => intro acc x hx; exact hx
  | cons id rest ih =>
    intro acc x hx
    exact sweepStep_sub (ih (sweepStep now acc id) x hx)

theorem sweepFold_removed {now : Nat} :
    ∀ (ids : List String) (acc : BrowserPool) (x : String × BrowserInstance),
      keysNodup acc.browserInstances → x ∈ acc.browserInstances →
      x ∉ (ids.foldl (sweepStep now) acc).browserInstances →
      x.2.isActive = true ∧ now - x.2.getLastUsed > idleTimeoutMs := by
  intro ids
  induction ids with
  | nil => intro acc x _ hx hn; exact absurd hx hn
  | cons id rest ih =>
    intro acc x hnd hx hn
    by_cases hx1 : x ∈ (sweepStep now acc id).browserInstances
    · exact ih (sweepStep now acc id) x (sweepStep_nodup hnd) hx1 hn
    · rcases sweepStep_eq now acc id with h | ⟨⟨inst, hm, hact, hidle⟩, h⟩
      · rw [h] at hx1
        exact absurd hx hx1
      · rw [h] at hx1
        have hkey : x.1 = id := not_mem_mapDelete_key hx hx1
        have : mapGet acc.browserInstances x.1 = some x.2 := by
          rcases x with ⟨xk, xv⟩
          exact mapGet_of_mem_nodup hnd hx
        rw [hkey, hm] at this
        rw [← Option.some_inj.mp this]
        exact ⟨hact, hidle⟩

theorem sweepFold_no_bad {now : Nat} :
    ∀ (ids : List String) (acc : BrowserPool),
      keysNodup acc.browserInstances →
      (∀ x ∈ acc.browserInstances,
        x.1 ∈ ids ∨ ¬(x.2.isActive = true ∧ now - x.2.getLastUsed > idleTimeoutMs)) →
      ∀ x ∈ (ids.foldl (sweepStep now) acc).browserInstances,
        ¬(x.2.isActive = true ∧ now - x.2.getLastUsed > idleTimeoutMs) := by
  intro ids
  induction ids with
  | nil =>
    intro acc _ hcov x hx
    rcases hcov x hx with h | h
    · simp at h
    · exact h
  | cons id rest ih =>
    intro acc hnd hcov x hx
    refine ih (sweepStep now acc id) (sweepStep_nodup hnd) ?_ x hx
    intro y hy
    have hy0 : y ∈ acc.browserInstances := sweepStep_sub hy
    rcases hcov y hy0 with h | h
    · rcases List.mem_cons.mp h with h1 | h1
      · right
        rintro ⟨hact, hidle⟩
        have hget : mapGet acc.browserInstances y.1 = some y.2 := by
          rcases y with ⟨yk, yv⟩
          exact mapGet_of_mem_nodup hnd hy0
        have hstep : sweepStep now acc y.1 = acc.closeBrowserInstance y.1 := by
          rw [sweepStep_some now acc y.1 y.2 hget]
          simp [hact, hidle]
        have hnotmem : y ∉ (sweepStep now acc y.1).browserInstances := by
          rw [hstep]
          unfold BrowserPool.closeBrowserInstance
          rw [hget]
          intro hc
          exact (mem_mapDelete_ne_key hc) rfl
        rw [h1] at hnotmem
        exact hnotmem hy
      · left; exact h1
    · right; exact h

theorem sweepFold_inactive_preserved {now : Nat} :
    ∀ (ids : List String) (acc : BrowserPool) (id : String) (inst : BrowserInstance),
      mapGet acc.browserInstances id = some inst → inst.isActive = false →
      mapGet (ids.foldl (sweepStep now) acc).browserInstances id = some inst := by
  intro ids
  induction ids with
  | nil => intro acc id inst hget _; exact hget
  | cons id2 rest ih =>
    intro acc id inst hget hinactive
    refine ih (sweepStep now acc id2) id inst ?_ hinactive
    by_cases hid : id2 = id
    · subst hid
      rw [sweepStep_some now acc id2 inst hget, hinactive]
      simpa using hget
    · rcases sweepStep_eq now acc id2 with h | ⟨_, h⟩
      · rw [h]; exact hget
      · rw [h]
        show mapGet (mapDelete acc.browserInstances id2) id = some inst
        rw [mapGet_mapDelete_ne _ _ _ (fun hc => hid hc.symm)]
        exact hget

/-- Iterated sweeps never remove an entry whose instance is inactive. -/
theorem sweepIter_inactive_preserved :
    ∀ (times : List Nat) (p : BrowserPool) (browserId : String)
      (inst : BrowserInstance),
      mapGet p.browserInstances browserId = some inst → inst.isActive = false →
      mapGet ((times.foldl (fun q t => q.cleanupIdleBrowsers t) p).browserInstances)
        browserId = some inst := by
  intro times
  induction times with
  | nil => intro p browserId inst hget _; exact hget
  | cons t rest ih =>
    intro p browserId inst hget hinactive
    exact ih (p.cleanupIdleBrowsers t) browserId inst
      (sweepFold_inactive_preserved _ p browserId inst hget hinactive) hinactive

/-! ## Correspondence between the two pool variants -/

theorem getBrowserInstance_corr (p : BrowserPool) (q : BrowserPoolPlain)
    (h : p.browserInstances = q.browserInstances) (browserId : String) (now : Nat) :
    (p.getBrowserInstance browserId now).1 = (q.getBrowserInstance browserId now).1 ∧
    (p.getBrowserInstance browserId now).2.browserInstances =
      (q.getBrowserInstance browserId now).2.browserInstances := by
  unfold BrowserPool.getBrowserInstance BrowserPoolPlain.getBrowserInstance
  rw [h]
  cases hm : mapGet q.browserInstances browserId <;> simp [h]

theorem getPage_corr (p : BrowserPool) (q : BrowserPoolPlain)
    (h : p.browserInstances = q.browserInstances) (browserId pageId : String)
    (now : Nat) (launchOk : Bool) (freshBrowser freshPage : Nat) :
    (p.getPage browserId pageId now launchOk freshBrowser freshPage).1 =
      (q.getPage browserId pageId now launchOk freshBrowser freshPage).1 ∧
    (p.getPage browserId pageId now launchOk freshBrowser freshPage).2.browserInstances =
      (q.getPage browserId pageId now launchOk freshBrowser
        freshPage).2.browserInstances := by
  obtain ⟨h1, h2⟩ := getBrowserInstance_corr p q h browserId now
  constructor
  · show ((p.getBrowserInstance browserId now).1.getPage pageId now launchOk
      freshBrowser freshPage).1 = ((q.getBrowserInstance browserId now).1.getPage
      pageId now launchOk freshBrowser freshPage).1
    rw [h1]
  · show mapSet (p.getBrowserInstance browserId now).2.browserInstances browserId
      ((p.getBrowserInstance browserId now).1.getPage pageId now launchOk freshBrowser
        freshPage).2 =
      mapSet (q.getBrowserInstance browserId now).2.browserInstances browserId
      ((q.getBrowserInstance browserId now).1.getPage pageId now launchOk freshBrowser
        freshPage).2
    rw [h1, h2]

theorem closeBrowserInstance_corr (p : BrowserPool) (q : BrowserPoolPlain)
    (h : p.browserInstances = q.browserInstances) (browserId : String) :
    (p.closeBrowserInstance browserId).browserInstances =
      (q.closeBrowserInstance browserId).browserInstances := by
  unfold BrowserPool.closeBrowserInstance BrowserPoolPlain.closeBrowserInstance
  rw [h]
  cases hm : mapGet q.browserInstances browserId <;> simp [h]

theorem closePage_some (p : BrowserPool) (browserId pageId : String)
    (inst : BrowserInstance)
    (hm : mapGet p.browserInstances browserId = some inst) :
    p.closePage browserId pageId =
      (if (inst.closePage pageId).getPageCount = 0 then
        ({ p with browserInstances := (mapSet p.browserInstances browserId (inst.closePage pageId)) } : BrowserPool).closeBrowserInstance browserId
      else { p with browserInstances := (mapSet p.browserInstances browserId (inst.closePage pageId)) }) := by
  unfold BrowserPool.closePage
  rw [hm]

theorem closePage_none (p : BrowserPool) (browserId pageId : String)
    (hm : mapGet p.browserInstances browserId = none) :
    p.closePage browserId pageId = p := by
  unfold BrowserPool.closePage
  rw [hm]

theorem plain_closePage_some (q : BrowserPoolPlain) (browserId pageId : String)
    (inst : BrowserInstance)
    (hm : mapGet q.browserInstances browserId = some inst) :
    q.closePage browserId pageId =
      (if (inst.closePage pageId).getPageCount = 0 then
        ({ q with browserInstances := (mapSet q.browserInstances browserId (inst.closePage pageId)) } : BrowserPoolPlain).closeBrowserInstance browserId
      else { q with browserInstances := (mapSet q.browserInstances browserId (inst.closePage pageId)) }) := by
  unfold BrowserPoolPlain.closePage
  rw [hm]

theorem plain_closePage_none (q : BrowserPoolPlain) (browserId pageId : String)
    (hm : mapGet q.browserInstances browserId = none) :
    q.closePage browserId pageId = q := by
  unfold BrowserPoolPlain.closePage
  rw [hm]

theorem closePage_corr (p : BrowserPool) (q : BrowserPoolPlain)
    (h : p.browserInstances = q.browserInstances) (browserId pageId : String) :
    (p.closePage browserId pageId).browserInstances =
      (q.closePage browserId pageId).browserInstances := by
  cases hm : mapGet q.browserInstances browserId with
  | none =>
    rw [closePage_none p browserId pageId (by rw [h]; exact hm),
      plain_closePage_none q browserId pageId hm]
    exact h
  | some inst =>
    rw [closePage_some p browserId pageId inst (by rw [h]; exact hm),
      plain_closePage_some q browserId pageId inst hm]
    by_cases hc : (inst.closePage pageId).getPageCount = 0
    · rw [if_pos hc, if_pos hc]
      exact closeBrowserInstance_corr _ _ (by show mapSet p.browserInstances _ _ = _; rw [h]) browserId
    · rw [if_neg hc, if_neg hc]
      show mapSet p.browserInstances browserId (inst.closePage pageId) =
        mapSet q.browserInstances browserId (inst.closePage pageId)
      rw [h]

theorem closeAll_corr (p : BrowserPool) (q : BrowserPoolPlain) :
    (p.closeAll).browserInstances = (q.closeAll).browserInstances := by
  rfl

theorem runPool_corr :
    ∀ (ops : List PoolOp) (p : BrowserPool) (q : BrowserPoolPlain),
      p.browserInstances = q.browserInstances →
      (runPool p ops).1.browserInstances = (runPoolPlain q ops).1.browserInstances ∧
      (runPool p ops).2 = (runPoolPlain q ops).2 := by
  intro ops
  induction ops with
  | nil => intro p q h; exact ⟨h, rfl⟩
  | cons op rest ih =>
    intro p q h
    cases op with
    | getPage browserId pageId now launchOk freshBrowser freshPage =>
      obtain ⟨h1, h2⟩ := getPage_corr p q h browserId pageId now launchOk
        freshBrowser freshPage
      obtain ⟨ih1, ih2⟩ := ih _ _ h2
      refine ⟨ih1, ?_⟩
      show (p.getPage browserId pageId now launchOk freshBrowser freshPage).1 ::
          (runPool (p.getPage browserId pageId now launchOk freshBrowser
            freshPage).2 rest).2 =
        (q.getPage browserId pageId now launchOk freshBrowser freshPage).1 ::
          (runPoolPlain (q.getPage browserId pageId now launchOk freshBrowser
            freshPage).2 rest).2
      rw [h1, ih2]
    | closePage browserId pageId =>
      exact ih _ _ (closePage_corr p q h browserId pageId)
    | closeBrowserInstance browserId =>
      exact ih _ _ (closeBrowserInstance_corr p q h browserId)
    | closeAll =>
      exact ih _ _ (closeAll_corr p q)

/-! ## Lemmas for the PageCache LRU invariant -/

/-- Entries ordered most-recently-accessed first. -/
def entriesMono (l : List (String × PageCacheEntry × Nat)) : Prop :=
  l.Pairwise (fun a b => b.2.1.lastAccessed ≤ a.2.1.lastAccessed)

theorem pairwise_getLast_min {α : Type} {R : α → α → Prop} :
    ∀ {l : List α} {a : α}, l.Pairwise R → l.getLast? = some a →
      ∀ x ∈ l, x = a ∨ R x a := by
  intro l
  induction l with
  | nil => intro a _ h; simp at h
  | cons e rest ih =>
    intro a hp hl x hx
    cases rest with
    | nil =>
      simp only [List.getLast?_singleton, Option.some_inj] at hl
      subst hl
      rcases List.mem_singleton.mp hx with rfl
      left; rfl
    | cons f rest2 =>
      rw [List.getLast?_cons_cons] at hl
      rw [List.pairwise_cons] at hp
      rcases List.mem_cons.mp hx with rfl | hx2
      · right
        exact hp.1 a (List.mem_of_getLast?_eq_some hl)
      · exact ih hp.2 hl x hx2

/-- Shape of `lru-cache` `set` below capacity or at capacity: the new entry
goes to the front, the remaining entries are a sub-list of the old ones,
the bound is kept, and an eviction (when reported) is the last (LRU)
entry. -/
theorem lruSet_shape {α : Type} (c : LRUCache α) (k : String) (v : α) (now : Nat)
    (hmax : 0 < c.max) (hlen : c.entries.length ≤ c.max) :
    ∃ tail, (lruSet c k v now).1.entries = (k, v, now) :: tail ∧
      tail.Sublist c.entries ∧
      (lruSet c k v now).1.entries.length ≤ c.max ∧
      ∀ ev, (lruSet c k v now).2 = some ev → c.entries.getLast? = some ev := by
  unfold lruSet
  by_cases h1 : (c.entries.find? (fun e => e.1 == k)).isSome = true
  · rw [if_pos h1]
    have hex : ∃ x, x ∈ c.entries ∧ (x.1 == k) = true := List.find?_isSome.mp h1
    have hlt : (lruErase c.entries k).length < c.entries.length := by
      apply List.length_filter_lt_length_iff_exists.mpr
      obtain ⟨x, hx, hk⟩ := hex
      exact ⟨x, hx, by simp [bne, hk]⟩
    refine ⟨lruErase c.entries k, rfl, List.filter_sublist _, ?_, ?_⟩
    · show ((k, v, now) :: lruErase c.entries k).length ≤ c.max
      simp only [List.length_cons]
      omega
    · intro ev hev
      simp at hev
  · rw [if_neg h1]
    by_cases h2 : c.entries.length < c.max
    · rw [if_pos h2]
      refine ⟨c.entries, rfl, List.Sublist.refl _, ?_, ?_⟩
      · show ((k, v, now) :: c.entries).length ≤ c.max
        simp only [List.length_cons]
        omega
      · intro ev hev
        simp at hev
    · rw [if_neg h2]
      cases hl : c.entries.getLast? with
      | none =>
        exfalso
        have : c.entries = [] := List.getLast?_eq_none_iff.mp hl
        rw [this] at h2
        simp at h2
        omega
      | some ev0 =>
        have hne : c.entries ≠ [] := by
          intro hc
          rw [hc] at hl
          simp at hl
        have hpos : 1 ≤ c.entries.length := List.length_pos.mpr hne
        refine ⟨c.entries.dropLast, rfl, List.dropLast_sublist _, ?_, ?_⟩
        · show ((k, v, now) :: c.entries.dropLast).length ≤ c.max
          simp only [List.length_cons, List.length_dropLast]
          omega
        · intro ev hev
          exact hev

/-- `addPage` at a time strictly later than every recorded access keeps the
recency order, the time bound, the capacity bound and the capacity itself,
and any entry it evicts is the last (minimal-`lastAccessed`) one. -/
theorem pc_addPage_inv (pc : PageCache) (url : String) (page : Nat)
    (browserId pageId : String) (now : Nat)
    (hmono : entriesMono pc.cache.entries)
    (hlt : ∀ x ∈ pc.cache.entries, x.2.1.lastAccessed < now)
    (hlen : pc.cache.entries.length ≤ pc.cache.max)
    (hmax : 0 < pc.cache.max) :
    entriesMono (pc.addPage url page browserId pageId now).2.1.cache.entries ∧
    (∀ x ∈ (pc.addPage url page browserId pageId now).2.1.cache.entries,
      x.2.1.lastAccessed ≤ now) ∧
    (pc.addPage url page browserId pageId now).2.1.cache.entries.length ≤
      pc.cache.max ∧
    (pc.addPage url page browserId pageId now).2.1.cache.max = pc.cache.max ∧
    (∀ ev, (pc.addPage url page browserId pageId now).2.2 = some ev →
      ∀ x ∈ pc.cache.entries, ev.2.1.lastAccessed ≤ x.2.1.lastAccessed) := by
  obtain ⟨tail, hsh, hsub, hlen2, hev⟩ := lruSet_shape pc.cache (normalizeUrl url)
    ⟨page, url, now, browserId, pageId⟩ now hmax hlen
  have hc : (pc.addPage url page browserId pageId now).2.1.cache =
      (lruSet pc.cache (normalizeUrl url)
        ⟨page, url, now, browserId, pageId⟩ now).1 := rfl
  have hc2 : (pc.addPage url page browserId pageId now).2.2 =
      (lruSet pc.cache (normalizeUrl url)
        ⟨page, url, now, browserId, pageId⟩ now).2 := rfl
  refine ⟨?_, ?_, ?_, ?_, ?_⟩
  · rw [entriesMono, hc, hsh, List.pairwise_cons]
    constructor
    · intro b hb
      exact le_of_lt (hlt b (hsub.subset hb))
    · exact hmono.sublist hsub
  · intro x hx
    rw [hc, hsh] at hx
    rcases List.mem_cons.mp hx with rfl | hx2
    · exact le_refl now
    · exact le_of_lt (hlt x (hsub.subset hx2))
  · rw [hc]
    exact hlen2
  · rw [hc]
    exact lruSet_max pc.cache (normalizeUrl url) ⟨page, url, now, browserId, pageId⟩ now
  · intro ev hevs x hx
    rw [hc2] at hevs
    have hlast := hev ev hevs
    rcases pairwise_getLast_min hmono hlast x hx with rfl | hR
    · exact le_refl _
    · exact hR

theorem pageCache_getPage_none (pc : PageCache) (url : String) (now : Nat)
    (hf : pc.cache.entries.find? (fun e => e.1 == normalizeUrl url) = none) :
    pc.getPage url now = (none, pc) := by
  unfold PageCache.getPage
  rw [hf]

theorem pageCache_getPage_some (pc : PageCache) (url : String) (now : Nat)
    (k0 : String) (v0 : PageCacheEntry) (s0 : Nat)
    (hf : pc.cache.entries.find? (fun e => e.1 == normalizeUrl url) = some (k0, v0, s0)) :
    pc.getPage url now =
      (if lruIsStale pc.cache.ttl s0 now then
        (none, ⟨{ pc.cache with entries := lruErase pc.cache.entries (normalizeUrl url) }⟩)
      else
        (some { v0 with lastAccessed := now },
         ⟨{ pc.cache with entries := ((normalizeUrl url, { v0 with lastAccessed := now }, now) :: lruErase pc.cache.entries (normalizeUrl url)) }⟩)) := by
  unfold PageCache.getPage
  rw [hf]

theorem runPageCache_cons_add (pc : PageCache) (url : String) (page : Nat)
    (browserId pageId : String) (t : Nat) (rest : List (PCOp × Nat)) :
    runPageCache pc ((PCOp.add url page browserId pageId, t) :: rest) =
      (match (pc.addPage url page browserId pageId t).2.2 with
       | some ev =>
         ((runPageCache (pc.addPage url page browserId pageId t).2.1 rest).1,
          (pc.cache.entries, ev) ::
            (runPageCache (pc.addPage url page browserId pageId t).2.1 rest).2)
       | none => runPageCache (pc.addPage url page browserId pageId t).2.1 rest) :=
  rfl

theorem runPageCache_cons_lookup (pc : PageCache) (url : String) (t : Nat)
    (rest : List (PCOp × Nat)) :
    runPageCache pc ((PCOp.lookup url, t) :: rest) =
      runPageCache (pc.getPage url t).2 rest :=
  rfl

/-- `getPage` keeps the recency order, the time bound and the capacity,
and never grows the cache. -/
theorem pc_getPage_inv (pc : PageCache) (url : String) (now : Nat)
    (hmono : entriesMono pc.cache.entries)
    (hlt : ∀ x ∈ pc.cache.entries, x.2.1.lastAccessed < now)
    (hlen : pc.cache.entries.length ≤ pc.cache.max) :
    entriesMono (pc.getPage url now).2.cache.entries ∧
    (∀ x ∈ (pc.getPage url now).2.cache.entries, x.2.1.lastAccessed ≤ now) ∧
    (pc.getPage url now).2.cache.entries.length ≤ pc.cache.max ∧
    (pc.getPage url now).2.cache.max = pc.cache.max := by
  cases hf : pc.cache.entries.find? (fun e => e.1 == normalizeUrl url) with
  | none =>
    rw [pageCache_getPage_none pc url now hf]
    exact ⟨hmono, fun x hx => le_of_lt (hlt x hx), hlen, rfl⟩
  | some t3 =>
    obtain ⟨k0, v0, s0⟩ := t3
    rw [pageCache_getPage_some pc url now k0 v0 s0 hf]
    have hex : (pc.cache.entries.find? (fun e => e.1 == normalizeUrl url)).isSome := by
      rw [hf]
      rfl
    have hlt2 : (lruErase pc.cache.entries (normalizeUrl url)).length <
        pc.cache.entries.length := by
      apply List.length_filter_lt_length_iff_exists.mpr
      obtain ⟨x, hx, hk⟩ := List.find?_isSome.mp hex
      exact ⟨x, hx, by simp [bne, hk]⟩
    by_cases hs : lruIsStale pc.cache.ttl s0 now
    · rw [if_pos hs]
      refine ⟨hmono.sublist (lruErase_sublist _ _), ?_, ?_, rfl⟩
      · intro x hx
        exact le_of_lt (hlt x ((lruErase_sublist _ _).subset hx))
      · show (lruErase pc.cache.entries (normalizeUrl url)).length ≤ pc.cache.max
        omega
    · rw [if_neg hs]
      refine ⟨?_, ?_, ?_, rfl⟩
      · rw [entriesMono]
        show ((normalizeUrl url, { v0 with lastAccessed := now }, now) ::
            lruErase pc.cache.entries (normalizeUrl url)).Pairwise _
        rw [List.pairwise_cons]
        constructor
        · intro b hb
          exact le_of_lt (hlt b ((lruErase_sublist _ _).subset hb))
        · exact hmono.sublist (lruErase_sublist _ _)
      · intro x hx
        rcases List.mem_cons.mp hx with rfl | hx2
        · exact le_refl now
        · exact le_of_lt (hlt x ((lruErase_sublist _ _).subset hx2))
      · show ((normalizeUrl url, { v0 with lastAccessed := now }, now) ::
            lruErase pc.cache.entries (normalizeUrl url)).length ≤ pc.cache.max
        simp only [List.length_cons]
        omega

/-- Invariant carried through a whole `runPageCache` trace. -/
theorem runPageCache_inv :
    ∀ (ops : List (PCOp × Nat)) (pc : PageCache),
      entriesMono pc.cache.entries →
      0 < pc.cache.max →
      pc.cache.entries.length ≤ pc.cache.max →
      List.Chain' (· < ·) (ops.map (·.2)) →
      (∀ t, (ops.map (·.2)).head? = some t →
        ∀ x ∈ pc.cache.entries, x.2.1.lastAccessed < t) →
      (runPageCache pc ops).1.cache.entries.length ≤ pc.cache.max ∧
      ∀ pr ∈ (runPageCache pc ops).2, ∀ x ∈ pr.1,
        pr.2.2.1.lastAccessed ≤ x.2.1.lastAccessed := by
  intro ops
  induction ops with
  | nil =>
    intro pc hmono hmax hlen _ _
    exact ⟨hlen, by intro pr hpr; simp [runPageCache] at hpr⟩
  | cons opt rest ih =>
    intro pc hmono hmax hlen hchain hhead
    obtain ⟨op, t⟩ := opt
    rw [List.map_cons, List.chain'_cons'] at hchain
    have hbdd : ∀ x ∈ pc.cache.entries, x.2.1.lastAccessed < t :=
      hhead t (by simp)
    cases op with
    | add url page browserId pageId =>
      obtain ⟨hmono2, hle2, hlen2, hmax2, hevmin⟩ :=
        pc_addPage_inv pc url page browserId pageId t hmono hbdd hlen hmax
      have hnext : ∀ u, (rest.map (·.2)).head? = some u →
          ∀ x ∈ (pc.addPage url page browserId pageId t).2.1.cache.entries,
            x.2.1.lastAccessed < u := by
        intro u hu x hx
        have h1 := hle2 x hx
        have h2 := hchain.1 u hu
        omega
      obtain ⟨ihlen, ihlog⟩ := ih (pc.addPage url page browserId pageId t).2.1
        hmono2 (by rw [hmax2]; exact hmax) (by rw [hmax2]; exact hlen2)
        hchain.2 hnext
      rw [hmax2] at ihlen
      rw [runPageCache_cons_add]
      cases hev : (pc.addPage url page browserId pageId t).2.2 with
      | none =>
        exact ⟨ihlen, ihlog⟩
      | some ev =>
        refine ⟨ihlen, ?_⟩
        intro pr hpr
        have hpr2 : pr ∈ (pc.cache.entries, ev) ::
            (runPageCache (pc.addPage url page browserId pageId t).2.1 rest).2 := hpr
        rcases List.mem_cons.mp hpr2 with rfl | hpr3
        · exact hevmin ev hev
        · exact ihlog pr hpr3
    | lookup url =>
      obtain ⟨hmono2, hle2, hlen2, hmax2⟩ := pc_getPage_inv pc url t hmono hbdd hlen
      have hnext : ∀ u, (rest.map (·.2)).head? = some u →
          ∀ x ∈ (pc.getPage url t).2.cache.entries, x.2.1.lastAccessed < u := by
        intro u hu x hx
        have h1 := hle2 x hx
        have h2 := hchain.1 u hu
        omega
      obtain ⟨ihlen, ihlog⟩ := ih (pc.getPage url t).2
        hmono2 (by rw [hmax2]; exact hmax) (by rw [hmax2]; exact hlen2)
        hchain.2 hnext
      rw [hmax2] at ihlen
      rw [runPageCache_cons_lookup]
      exact ⟨ihlen, ihlog⟩

/-! ## Lemmas for the getPageForUrl failure path -/

/-- The page-cache index a pool currently holds (empty when caching is
disabled). -/
def poolCacheEntries (p : BrowserPool) : List (String × PageCacheEntry × Nat) :=
  match p.pageCache with
  | some pc => pc.cache.entries
  | none => []

theorem poolCacheEntries_congr {p q : BrowserPool}
    (h : p.pageCache = q.pageCache) : poolCacheEntries p = poolCacheEntries q := by
  unfold poolCacheEntries
  rw [h]

theorem getBrowserInstance_pageCache (p : BrowserPool) (browserId : String)
    (now : Nat) : (p.getBrowserInstance browserId now).2.pageCache = p.pageCache := by
  unfold BrowserPool.getBrowserInstance
  cases mapGet p.browserInstances browserId <;> rfl

theorem fetchPageForUrl_error_pageCache (p : BrowserPool)
    (browserId pageId url : String) (now : Nat) (bypassCache launchOk : Bool)
    (freshBrowser freshPage : Nat) (gotoOk : Bool) (e : String)
    (herr : (BrowserPool.fetchPageForUrl p browserId pageId url now bypassCache
      launchOk freshBrowser freshPage gotoOk).1 = .error e) :
    (BrowserPool.fetchPageForUrl p browserId pageId url now bypassCache launchOk
      freshBrowser freshPage gotoOk).2.pageCache = p.pageCache := by
  simp only [BrowserPool.fetchPageForUrl] at herr ⊢
  cases hr : ((p.getBrowserInstance browserId now).1.getPage pageId now launchOk
      freshBrowser freshPage).1 with
  | error e2 =>
    exact getBrowserInstance_pageCache p browserId now
  | ok page =>
    cases gotoOk with
    | false =>
      exact getBrowserInstance_pageCache p browserId now
    | true =>
      rw [hr] at herr
      cases hpc3 : (p.getBrowserInstance browserId now).2.pageCache with
      | none =>
        rw [hpc3] at herr
        cases bypassCache <;> simp at herr
      | some pc =>
        rw [hpc3] at herr
        cases bypassCache <;> simp at herr

/-- A `getPage` miss never grows the cache index. -/
theorem pageCache_getPage_miss_sublist (pc : PageCache) (url : String) (now : Nat)
    (hmiss : (pc.getPage url now).1 = none) :
    (pc.getPage url now).2.cache.entries.Sublist pc.cache.entries := by
  cases hf : pc.cache.entries.find? (fun e => e.1 == normalizeUrl url) with
  | none =>
    rw [pageCache_getPage_none pc url now hf]
  | some t3 =>
    obtain ⟨k0, v0, s0⟩ := t3
    rw [pageCache_getPage_some pc url now k0 v0 s0 hf] at hmiss ⊢
    by_cases hs : lruIsStale pc.cache.ttl s0 now
    · rw [if_pos hs]
      exact lruErase_sublist _ _
    · rw [if_neg hs] at hmiss
      simp at hmiss

theorem getPageForUrl_some_nobypass (p : BrowserPool) (pc0 : PageCache)
    (browserId pageId url : String) (now : Nat) (launchOk : Bool)
    (freshBrowser freshPage : Nat) (gotoOk : Bool)
    (hpc : p.pageCache = some pc0) :
    p.getPageForUrl browserId pageId url now false launchOk freshBrowser freshPage
        gotoOk =
      (match (pc0.getPage url now).1 with
       | some entry =>
         (.ok entry.page, { p with pageCache := some (pc0.getPage url now).2 })
       | none =>
         BrowserPool.fetchPageForUrl { p with pageCache := some (pc0.getPage url now).2 }
           browserId pageId url now false launchOk freshBrowser freshPage gotoOk) := by
  unfold BrowserPool.getPageForUrl
  rw [hpc]

/-! ## Character-level lemmas for URL normalisation -/

theorem char_eq_of_toNat_eq {c d : Char} (h : c.toNat = d.toNat) : c = d :=
  Char.ext (UInt32.ext h)

theorem isUpper_iff (c : Char) : c.isUpper = true ↔ (65 ≤ c.toNat ∧ c.toNat ≤ 90) := by
  have h65 : ((65 : UInt32)).toBitVec.toNat = 65 := rfl
  have h90 : ((90 : UInt32)).toBitVec.toNat = 90 := rfl
  simp only [Char.isUpper, Bool.and_eq_true, decide_eq_true_eq, ge_iff_le,
    UInt32.le_def, BitVec.le_def, h65, h90, Char.toNat, UInt32.toNat]

theorem isLower_iff (c : Char) : c.isLower = true ↔ (97 ≤ c.toNat ∧ c.toNat ≤ 122) := by
  have h97 : ((97 : UInt32)).toBitVec.toNat = 97 := rfl
  have h122 : ((122 : UInt32)).toBitVec.toNat = 122 := rfl
  simp only [Char.isLower, Bool.and_eq_true, decide_eq_true_eq, ge_iff_le,
    UInt32.le_def, BitVec.le_def, h97, h122, Char.toNat, UInt32.toNat]

theorem isDigit_iff (c : Char) : c.isDigit = true ↔ (48 ≤ c.toNat ∧ c.toNat ≤ 57) := by
  have h48 : ((48 : UInt32)).toBitVec.toNat = 48 := rfl
  have h57 : ((57 : UInt32)).toBitVec.toNat = 57 := rfl
  simp only [Char.isDigit, Bool.and_eq_true, decide_eq_true_eq, ge_iff_le,
    UInt32.le_def, BitVec.le_def, h48, h57, Char.toNat, UInt32.toNat]

theorem isAlpha_iff (c : Char) : c.isAlpha = true ↔
    ((65 ≤ c.toNat ∧ c.toNat ≤ 90) ∨ (97 ≤ c.toNat ∧ c.toNat ≤ 122)) := by
  simp only [Char.isAlpha, Bool.or_eq_true, isUpper_iff, isLower_iff]

theorem isAlphanum_iff (c : Char) : c.isAlphanum = true ↔
    (((65 ≤ c.toNat ∧ c.toNat ≤ 90) ∨ (97 ≤ c.toNat ∧ c.toNat ≤ 122)) ∨
      (48 ≤ c.toNat ∧ c.toNat ≤ 57)) := by
  simp only [Char.isAlphanum, Bool.or_eq_true, isAlpha_iff, isDigit_iff]

theorem toLower_toNat_of_upper (c : Char) (h : c.toNat ≥ 65 ∧ c.toNat ≤ 90) :
    (Char.toLower c).toNat = c.toNat + 32 := by
  simp only [Char.toLower]
  rw [if_pos h]
  have hv : Nat.isValidChar (c.toNat + 32) := Or.inl (by omega)
  show (Char.ofNat (c.toNat + 32)).toNat = c.toNat + 32
  unfold Char.ofNat
  rw [dif_pos hv]
  rfl

theorem toLower_of_not_upper (c : Char) (h : ¬(c.toNat ≥ 65 ∧ c.toNat ≤ 90)) :
    Char.toLower c = c := by
  simp only [Char.toLower]
  rw [if_neg h]

theorem toLower_toLower (c : Char) :
    Char.toLower (Char.toLower c) = Char.toLower c := by
  by_cases h : c.toNat ≥ 65 ∧ c.toNat ≤ 90
  · have h2 := toLower_toNat_of_upper c h
    apply toLower_of_not_upper
    rw [h2]
    omega
  · have h2 := toLower_of_not_upper c h
    rw [h2]
    exact h2

theorem isAlpha_toLower {c : Char} (h : c.isAlpha = true) :
    (Char.toLower c).isAlpha = true := by
  by_cases hu : c.toNat ≥ 65 ∧ c.toNat ≤ 90
  · have h2 := toLower_toNat_of_upper c hu
    rw [isAlpha_iff]
    right
    omega
  · rw [toLower_of_not_upper c hu]
    exact h

theorem hostChar_toLower {c : Char} (h : hostChar c = true) :
    hostChar (Char.toLower c) = true := by
  by_cases hu : c.toNat ≥ 65 ∧ c.toNat ≤ 90
  · have h2 := toLower_toNat_of_upper c hu
    have hl : (Char.toLower c).isAlphanum = true := by
      rw [isAlphanum_iff]
      left
      right
      omega
    simp [hostChar, hl]
  · rw [toLower_of_not_upper c hu]
    exact h

theorem pathChar_toLower {c : Char} (h : pathChar c = true) :
    pathChar (Char.toLower c) = true := by
  by_cases hu : c.toNat ≥ 65 ∧ c.toNat ≤ 90
  · have h2 := toLower_toNat_of_upper c hu
    have hl : (Char.toLower c).isAlphanum = true := by
      rw [isAlphanum_iff]
      left
      right
      omega
    simp [pathChar, hl]
  · rw [toLower_of_not_upper c hu]
    exact h

theorem toLower_ne_colon {c : Char} (h : c.isAlpha = true) :
    (Char.toLower c != ':') = true := by
  rw [bne_iff_ne]
  intro hc
  have h58 : (Char.toLower c).toNat = 58 := by rw [hc]; rfl
  by_cases hu : c.toNat ≥ 65 ∧ c.toNat ≤ 90
  · have := toLower_toNat_of_upper c hu
    omega
  · rw [toLower_of_not_upper c hu] at h58
    have := isAlpha_iff c |>.mp h
    omega

theorem toLower_eq_slash_iff (c : Char) : Char.toLower c = '/' ↔ c = '/' := by
  constructor
  · intro hc
    by_cases hu : c.toNat ≥ 65 ∧ c.toNat ≤ 90
    · exfalso
      have h2 := toLower_toNat_of_upper c hu
      rw [hc] at h2
      have h47 : ('/' : Char).toNat = 47 := rfl
      omega
    · rw [toLower_of_not_upper c hu] at hc
      exact hc
  · intro hc
    subst hc
    apply toLower_of_not_upper
    have h47 : ('/' : Char).toNat = 47 := rfl
    omega

theorem toLower_eq_dot_iff (c : Char) : Char.toLower c = '.' ↔ c = '.' := by
  constructor
  · intro hc
    by_cases hu : c.toNat ≥ 65 ∧ c.toNat ≤ 90
    · exfalso
      have h2 := toLower_toNat_of_upper c hu
      rw [hc] at h2
      have h46 : ('.' : Char).toNat = 46 := rfl
      omega
    · rw [toLower_of_not_upper c hu] at hc
      exact hc
  · intro hc
    subst hc
    apply toLower_of_not_upper
    have h46 : ('.' : Char).toNat = 46 := rfl
    omega

theorem beq_lowerChar_slash (c : Char) : (lowerChar c == '/') = (c == '/') := by
  unfold lowerChar
  by_cases h : c = '/'
  · subst h
    rfl
  · rw [beq_eq_false_iff_ne.mpr (fun hc => h ((toLower_eq_slash_iff c).mp hc)),
      beq_eq_false_iff_ne.mpr h]

theorem beq_lowerChar_dot (c : Char) : (lowerChar c == '.') = (c == '.') := by
  unfold lowerChar
  by_cases h : c = '.'
  · subst h
    rfl
  · rw [beq_eq_false_iff_ne.mpr (fun hc => h ((toLower_eq_dot_iff c).mp hc)),
      beq_eq_false_iff_ne.mpr h]

/-! ## List-level lemmas for URL normalisation -/

theorem takeWhile_append_all {p : Char → Bool} :
    ∀ (xs ys : List Char), (∀ x ∈ xs, p x = true) →
      (xs ++ ys).takeWhile p = xs ++ ys.takeWhile p := by
  intro xs
  induction xs with
  | nil => intro ys _; simp
  | cons a as ih =>
    intro ys h
    rw [List.cons_append, List.takeWhile_cons, if_pos (h a (List.mem_cons_self a as)),
      List.cons_append, ih ys (fun x hx => h x (List.mem_cons_of_mem a hx))]

theorem dropWhile_append_all {p : Char → Bool} :
    ∀ (xs ys : List Char), (∀ x ∈ xs, p x = true) →
      (xs ++ ys).dropWhile p = ys.dropWhile p := by
  intro xs
  induction xs with
  | nil => intro ys _; simp
  | cons a as ih =>
    intro ys h
    rw [List.cons_append, List.dropWhile_cons, if_pos (h a (List.mem_cons_self a as)),
      ih ys (fun x hx => h x (List.mem_cons_of_mem a hx))]

theorem takeWhile_all {p : Char → Bool} :
    ∀ (xs : List Char), (∀ x ∈ xs, p x = true) → xs.takeWhile p = xs := by
  intro xs
  induction xs with
  | nil => intro _; rfl
  | cons a as ih =>
    intro h
    rw [List.takeWhile_cons, if_pos (h a (List.mem_cons_self a as)),
      ih (fun x hx => h x (List.mem_cons_of_mem a hx))]

theorem dropWhile_all {p : Char → Bool} :
    ∀ (xs : List Char), (∀ x ∈ xs, p x = true) → xs.dropWhile p = [] := by
  intro xs
  induction xs with
  | nil => intro _; rfl
  | cons a as ih =>
    intro h
    rw [List.dropWhile_cons, if_pos (h a (List.mem_cons_self a as)),
      ih (fun x hx => h x (List.mem_cons_of_mem a hx))]

theorem takeWhile_cons_neg {p : Char → Bool} {y : Char} (ys : List Char)
    (h : p y = false) : (y :: ys).takeWhile p = [] := by
  rw [List.takeWhile_cons, if_neg (by simp [h])]

theorem dropWhile_cons_neg {p : Char → Bool} {y : Char} (ys : List Char)
    (h : p y = false) : (y :: ys).dropWhile p = y :: ys := by
  rw [List.dropWhile_cons, if_neg (by simp [h])]

theorem stripSlash_append (X Y : List Char) (hY : Y ≠ []) :
    stripSlash (X ++ Y) = X ++ stripSlash Y := by
  unfold stripSlash
  rw [List.getLast?_append_of_ne_nil X hY]
  by_cases h : Y.getLast? = some '/'
  · rw [if_pos h, if_pos h, List.dropLast_append_of_ne_nil X hY]
  · rw [if_neg h, if_neg h]

theorem lowerStr_ends_slash_iff (l : List Char) :
    (lowerStr l).getLast? = some '/' ↔ l.getLast? = some '/' := by
  unfold lowerStr lowerChar
  rw [List.getLast?_map]
  cases hl : l.getLast? with
  | none => simp
  | some c =>
    rw [Option.map_some']
    simp only [Option.some_inj]
    exact toLower_eq_slash_iff c

theorem stripSlash_lowerStr (l : List Char) :
    stripSlash (lowerStr l) = lowerStr (stripSlash l) := by
  by_cases h : l.getLast? = some '/'
  · unfold stripSlash
    rw [if_pos ((lowerStr_ends_slash_iff l).mpr h), if_pos h]
    unfold lowerStr lowerChar
    exact (List.map_dropLast Char.toLower l).symm
  · unfold stripSlash
    rw [if_neg (fun hc => h ((lowerStr_ends_slash_iff l).mp hc)), if_neg h]

theorem lowerStr_lowerStr (l : List Char) : lowerStr (lowerStr l) = lowerStr l := by
  unfold lowerStr lowerChar
  rw [List.map_map]
  exact List.map_congr_left (fun a _ => toLower_toLower a)

theorem lowerStr_ne_nil {l : List Char} (h : l ≠ []) : lowerStr l ≠ [] := by
  unfold lowerStr
  simpa using h

theorem all_lowerStr {p : Char → Bool} {l : List Char}
    (hpres : ∀ c, p c = true → p (Char.toLower c) = true) (h : l.all p = true) :
    (lowerStr l).all p = true := by
  rw [List.all_eq_true] at h ⊢
  intro x hx
  rw [lowerStr, List.mem_map] at hx
  obtain ⟨c, hc, rfl⟩ := hx
  exact hpres c (h c hc)

/-! ## Shape of successful parses -/

theorem parseQuery_all {rest q : List Char} (h : parseQuery rest = some q) :
    q.all queryChar = true := by
  unfold parseQuery at h
  split at h
  · cases h
    rfl
  · split at h
    · cases h
      rw [List.all_eq_true]
      intro x hx
      exact List.mem_takeWhile_imp hx
    · cases h
      rw [List.all_eq_true]
      intro x hx
      exact List.mem_takeWhile_imp hx
    · cases h
  · cases h
    rfl
  · cases h

theorem parseUrl_shape {cs : List Char} {p : UrlParts} (hp : parseUrl cs = some p) :
    p.scheme ≠ [] ∧ p.scheme.all Char.isAlpha = true ∧
    p.host ≠ [] ∧ p.host.all hostChar = true ∧
    (∃ t, p.path = '/' :: t) ∧ p.path.all pathChar = true ∧
    noSlashDot p.path = true ∧ p.query.all queryChar = true := by
  unfold parseUrl at hp
  split at hp
  · rename_i rest2 heq
    split at hp
    · cases hp
    · rename_i hsc
      split at hp
      · cases hp
      · rename_i hh
        rw [Bool.not_eq_true, Bool.or_eq_false_iff] at hsc
        have hsc1 : cs.takeWhile (fun c => c != ':') ≠ [] := by
          have := hsc.1
          simpa [List.isEmpty_iff] using this
        have hsc2 : (cs.takeWhile (fun c => c != ':')).all Char.isAlpha = true := by
          have := hsc.2
          simpa using this
        have hh1 : rest2.takeWhile hostChar ≠ [] := by
          simpa [List.isEmpty_iff] using hh
        have hh2 : (rest2.takeWhile hostChar).all hostChar = true := by
          rw [List.all_eq_true]
          intro x hx
          exact List.mem_takeWhile_imp hx
        split at hp
        · cases hp
          exact ⟨hsc1, hsc2, hh1, hh2, ⟨[], rfl⟩, rfl, rfl, rfl⟩
        · rename_i r hr
          split at hp
          · rename_i hguard
            rw [Option.map_eq_some'] at hp
            obtain ⟨q, hq, hpe⟩ := hp
            cases hpe
            refine ⟨hsc1, hsc2, hh1, hh2, ?_, ?_, hguard, parseQuery_all hq⟩
            · refine ⟨r.takeWhile pathChar, ?_⟩
              rw [List.takeWhile_cons, if_pos (by decide)]
            · rw [List.all_eq_true]
              intro x hx
              exact List.mem_takeWhile_imp hx
          · cases hp
        · rename_i r hr
          rw [Option.map_eq_some'] at hp
          obtain ⟨q, hq, hpe⟩ := hp
          cases hpe
          exact ⟨hsc1, hsc2, hh1, hh2, ⟨[], rfl⟩, rfl, rfl, parseQuery_all hq⟩
        · cases hp
          exact ⟨hsc1, hsc2, hh1, hh2, ⟨[], rfl⟩, rfl, rfl, rfl⟩
        · cases hp
  · cases hp

theorem alpha_bne_colon {c : Char} (h : c.isAlpha = true) : (c != ':') = true := by
  rw [bne_iff_ne]
  intro hc
  have := isAlpha_iff c |>.mp h
  rw [hc] at this
  have h58 : (':' : Char).toNat = 58 := rfl
  omega

theorem all_of_sublist {p : Char → Bool} {l1 l2 : List Char} (hs : l1.Sublist l2)
    (h : l2.all p = true) : l1.all p = true := by
  rw [List.all_eq_true] at h ⊢
  intro x hx
  exact h x (hs.subset hx)

theorem stripSlash_sublist (l : List Char) : (stripSlash l).Sublist l := by
  unfold stripSlash
  by_cases hend : l.getLast? = some '/'
  · rw [if_pos hend]
    exact List.dropLast_sublist l
  · rw [if_neg hend]

theorem stripSlash_shape (t : List Char) :
    stripSlash ('/' :: t) = [] ∨ ∃ u, stripSlash ('/' :: t) = '/' :: u := by
  unfold stripSlash
  by_cases hend : ('/' :: t).getLast? = some '/'
  · rw [if_pos hend]
    cases t with
    | nil => left; rfl
    | cons a t2 =>
      right
      refine ⟨(a :: t2).dropLast, ?_⟩
      rw [show ('/' :: a :: t2) = ['/'] ++ (a :: t2) from rfl,
        List.dropLast_append_of_ne_nil ['/'] (by simp)]
      rfl
  · rw [if_neg hend]
    right
    exact ⟨t, rfl⟩

theorem noSlashDot_dropLast : ∀ (l : List Char), noSlashDot l = true →
    noSlashDot l.dropLast = true
  | [] => fun _ => rfl
  | [_] => fun _ => rfl
  | [_, _] => fun _ => rfl
  | a :: b :: c :: rest => fun h => by
    have h' : (!(a == '/' && b == '.') && noSlashDot (b :: c :: rest)) = true := h
    rw [Bool.and_eq_true] at h'
    have hIH : noSlashDot ((b :: c :: rest).dropLast) = true :=
      noSlashDot_dropLast (b :: c :: rest) h'.2
    show (!(a == '/' && b == '.') && noSlashDot ((b :: c :: rest).dropLast)) = true
    rw [Bool.and_eq_true]
    exact ⟨h'.1, hIH⟩

theorem noSlashDot_stripSlash {l : List Char} (h : noSlashDot l = true) :
    noSlashDot (stripSlash l) = true := by
  unfold stripSlash
  by_cases hend : l.getLast? = some '/'
  · rw [if_pos hend]
    exact noSlashDot_dropLast l h
  · rw [if_neg hend]
    exact h

theorem noSlashDot_lowerStr : ∀ (l : List Char),
    noSlashDot (lowerStr l) = noSlashDot l
  | [] => rfl
  | [_] => rfl
  | a :: b :: rest => by
    show (!(lowerChar a == '/' && lowerChar b == '.') &&
        noSlashDot (lowerChar b :: lowerStr rest)) =
      (!(a == '/' && b == '.') && noSlashDot (b :: rest))
    rw [beq_lowerChar_slash a, beq_lowerChar_dot b,
      show (lowerChar b :: lowerStr rest) = lowerStr (b :: rest) from rfl,
      noSlashDot_lowerStr (b :: rest)]

theorem parseQuery_query (q : List Char) (hq : q.all queryChar = true) :
    parseQuery ('?' :: q) = some q := by
  show (match q.dropWhile queryChar with
    | [] => some (q.takeWhile queryChar)
    | '#' :: _ => some (q.takeWhile queryChar)
    | _ => none) = some q
  rw [dropWhile_all q (fun x hx => List.all_eq_true.mp hq x hx)]
  show some (q.takeWhile queryChar) = some q
  rw [takeWhile_all q (fun x hx => List.all_eq_true.mp hq x hx)]

theorem dropWhile_colon_slashes (X : List Char) :
    List.dropWhile (fun c => c != ':') ([':', '/', '/'] ++ X) =
      ':' :: '/' :: '/' :: X := by
  rw [show ([':', '/', '/'] : List Char) ++ X = ':' :: '/' :: '/' :: X from rfl]
  exact dropWhile_cons_neg _ (by decide)

theorem takeWhile_colon_slashes (X : List Char) :
    List.takeWhile (fun c => c != ':') ([':', '/', '/'] ++ X) = [] := by
  rw [show ([':', '/', '/'] : List Char) ++ X = ':' :: '/' :: '/' :: X from rfl]
  exact takeWhile_cons_neg _ (by decide)

theorem parseUrl_cons_shape (cs R : List Char)
    (hdrop : cs.dropWhile (fun c => c != ':') = ':' :: '/' :: '/' :: R) :
    parseUrl cs =
      (if (cs.takeWhile (fun c => c != ':')).isEmpty
          || !(cs.takeWhile (fun c => c != ':')).all Char.isAlpha then none
      else if (R.takeWhile hostChar).isEmpty then none
      else
        match R.dropWhile hostChar with
        | [] =>
          some ⟨cs.takeWhile (fun c => c != ':'), R.takeWhile hostChar, ['/'], []⟩
        | '/' :: r =>
          if noSlashDot (('/' :: r).takeWhile pathChar) then
            (parseQuery (('/' :: r).dropWhile pathChar)).map
              (fun q => ⟨cs.takeWhile (fun c => c != ':'), R.takeWhile hostChar,
                ('/' :: r).takeWhile pathChar, q⟩)
          else none
        | '?' :: r =>
          (parseQuery ('?' :: r)).map
            (fun q => ⟨cs.takeWhile (fun c => c != ':'), R.takeWhile hostChar,
              ['/'], q⟩)
        | '#' :: _ =>
          some ⟨cs.takeWhile (fun c => c != ':'), R.takeWhile hostChar, ['/'], []⟩
        | _ => none) := by
  unfold parseUrl
  rw [hdrop]
  rfl

/-- Re-parsing the rendered normal form recovers the components: the
scheme and host verbatim, the stripped path (read back as `/` when it
stripped to nothing), and the query verbatim. -/
theorem parseUrl_norm (sc hs pa q : List Char)
    (hsc1 : sc ≠ []) (hsc2 : sc.all Char.isAlpha = true)
    (hh1 : hs ≠ []) (hh2 : hs.all hostChar = true)
    (hpa1 : ∃ t, pa = '/' :: t) (hpa2 : pa.all pathChar = true)
    (hnd : noSlashDot pa = true) (hq : q.all queryChar = true) :
    parseUrl ((sc ++ [':', '/', '/'] ++ hs ++ stripSlash pa) ++
        (if q.isEmpty then [] else '?' :: q)) =
      some ⟨sc, hs, (if (stripSlash pa).isEmpty then ['/'] else stripSlash pa), q⟩ := by
  obtain ⟨t, rfl⟩ := hpa1
  have hnd' : noSlashDot (stripSlash ('/' :: t)) = true := noSlashDot_stripSlash hnd
  have hcolon : ∀ x ∈ sc, (x != ':') = true :=
    fun x hx => alpha_bne_colon (List.all_eq_true.mp hsc2 x hx)
  have hhost : ∀ x ∈ hs, hostChar x = true :=
    fun x hx => List.all_eq_true.mp hh2 x hx
  have hstripall : (stripSlash ('/' :: t)).all pathChar = true :=
    all_of_sublist (stripSlash_sublist _) hpa2
  have hscF : ¬((sc.isEmpty || !sc.all Char.isAlpha) = true) := by
    rw [hsc2]
    simp [List.isEmpty_iff, hsc1]
  have hhsF : ¬(hs.isEmpty = true) := by
    simpa [List.isEmpty_iff] using hh1
  by_cases hqe : q.isEmpty = true
  · rw [List.isEmpty_iff] at hqe
    subst hqe
    rw [show (if ([] : List Char).isEmpty = true then ([] : List Char) else '?' :: []) =
      [] from rfl, List.append_nil]
    rcases stripSlash_shape t with hsp | ⟨u, hsp⟩
    · rw [hsp, List.append_nil,
        show (if ([] : List Char).isEmpty = true then ['/'] else ([] : List Char)) =
          ['/'] from rfl]
      have hdrop : (sc ++ [':', '/', '/'] ++ hs).dropWhile (fun c => c != ':') =
          ':' :: '/' :: '/' :: hs := by
        rw [List.append_assoc, dropWhile_append_all sc _ hcolon, dropWhile_colon_slashes]
      have htake : (sc ++ [':', '/', '/'] ++ hs).takeWhile (fun c => c != ':') = sc := by
        rw [List.append_assoc, takeWhile_append_all sc _ hcolon, takeWhile_colon_slashes,
          List.append_nil]
      rw [parseUrl_cons_shape _ _ hdrop, htake, if_neg hscF,
        takeWhile_all hs hhost, dropWhile_all hs hhost, if_neg hhsF]
    · rw [hsp,
        show (if ('/' :: u).isEmpty = true then ['/'] else '/' :: u) = '/' :: u from rfl]
      have hpu : ∀ x ∈ '/' :: u, pathChar x = true := by
        rw [hsp] at hstripall
        exact fun x hx => List.all_eq_true.mp hstripall x hx
      have hdrop : (sc ++ [':', '/', '/'] ++ hs ++ '/' :: u).dropWhile
          (fun c => c != ':') = ':' :: '/' :: '/' :: (hs ++ '/' :: u) := by
        rw [List.append_assoc, List.append_assoc, dropWhile_append_all sc _ hcolon,
          dropWhile_colon_slashes]
      have htake : (sc ++ [':', '/', '/'] ++ hs ++ '/' :: u).takeWhile
          (fun c => c != ':') = sc := by
        rw [List.append_assoc, List.append_assoc, takeWhile_append_all sc _ hcolon,
          takeWhile_colon_slashes, List.append_nil]
      rw [hsp] at hnd'
      rw [parseUrl_cons_shape _ _ hdrop, htake, if_neg hscF,
        takeWhile_append_all hs _ hhost, @takeWhile_cons_neg hostChar '/' u (by decide),
        List.append_nil, if_neg hhsF,
        dropWhile_append_all hs _ hhost, @dropWhile_cons_neg hostChar '/' u (by decide)]
      show (if noSlashDot (('/' :: u).takeWhile pathChar) then
          (parseQuery (('/' :: u).dropWhile pathChar)).map
            (fun q0 => (⟨sc, hs, ('/' :: u).takeWhile pathChar, q0⟩ : UrlParts))
        else none) = some ⟨sc, hs, '/' :: u, []⟩
      rw [takeWhile_all _ hpu, dropWhile_all _ hpu, if_pos hnd']
      rfl
  · rw [if_neg hqe]
    rcases stripSlash_shape t with hsp | ⟨u, hsp⟩
    · rw [hsp, List.append_nil,
        show (if ([] : List Char).isEmpty = true then ['/'] else ([] : List Char)) =
          ['/'] from rfl]
      have hdrop : (sc ++ [':', '/', '/'] ++ hs ++ '?' :: q).dropWhile
          (fun c => c != ':') = ':' :: '/' :: '/' :: (hs ++ '?' :: q) := by
        rw [List.append_assoc, List.append_assoc, dropWhile_append_all sc _ hcolon,
          dropWhile_colon_slashes]
      have htake : (sc ++ [':', '/', '/'] ++ hs ++ '?' :: q).takeWhile
          (fun c => c != ':') = sc := by
        rw [List.append_assoc, List.append_assoc, takeWhile_append_all sc _ hcolon,
          takeWhile_colon_slashes, List.append_nil]
      rw [parseUrl_cons_shape _ _ hdrop, htake, if_neg hscF,
        takeWhile_append_all hs _ hhost, @takeWhile_cons_neg hostChar '?' q (by decide),
        List.append_nil, if_neg hhsF,
        dropWhile_append_all hs _ hhost, @dropWhile_cons_neg hostChar '?' q (by decide)]
      show (parseQuery ('?' :: q)).map
          (fun q0 => (⟨sc, hs, ['/'], q0⟩ : UrlParts)) = some ⟨sc, hs, ['/'], q⟩
      rw [parseQuery_query q hq]
      rfl
    · rw [hsp, List.append_assoc (sc ++ [':', '/', '/'] ++ hs), List.cons_append,
        show (if ('/' :: u).isEmpty = true then ['/'] else '/' :: u) = '/' :: u from rfl]
      have hpu : ∀ x ∈ '/' :: u, pathChar x = true := by
        rw [hsp] at hstripall
        exact fun x hx => List.all_eq_true.mp hstripall x hx
      have hdrop : (sc ++ [':', '/', '/'] ++ hs ++ '/' :: (u ++ '?' :: q)).dropWhile
          (fun c => c != ':') = ':' :: '/' :: '/' :: (hs ++ '/' :: (u ++ '?' :: q)) := by
        rw [List.append_assoc, List.append_assoc, dropWhile_append_all sc _ hcolon,
          dropWhile_colon_slashes]
      have htake : (sc ++ [':', '/', '/'] ++ hs ++ '/' :: (u ++ '?' :: q)).takeWhile
          (fun c => c != ':') = sc := by
        rw [List.append_assoc, List.append_assoc, takeWhile_append_all sc _ hcolon,
          takeWhile_colon_slashes, List.append_nil]
      rw [parseUrl_cons_shape _ _ hdrop, htake, if_neg hscF,
        takeWhile_append_all hs _ hhost,
        @takeWhile_cons_neg hostChar '/' (u ++ '?' :: q) (by decide),
        List.append_nil, if_neg hhsF,
        dropWhile_append_all hs _ hhost,
        @dropWhile_cons_neg hostChar '/' (u ++ '?' :: q) (by decide)]
      rw [hsp] at hnd'
      show (if noSlashDot (('/' :: (u ++ '?' :: q)).takeWhile pathChar) then
          (parseQuery (('/' :: (u ++ '?' :: q)).dropWhile pathChar)).map
            (fun q0 => (⟨sc, hs, ('/' :: (u ++ '?' :: q)).takeWhile pathChar, q0⟩ :
              UrlParts))
        else none) = some ⟨sc, hs, '/' :: u, q⟩
      have htw : ('/' :: (u ++ '?' :: q)).takeWhile pathChar = '/' :: u := by
        rw [show ('/' :: (u ++ '?' :: q)) = ('/' :: u) ++ '?' :: q from rfl,
          takeWhile_append_all _ _ hpu, @takeWhile_cons_neg pathChar '?' q (by decide),
          List.append_nil]
      have hdw : ('/' :: (u ++ '?' :: q)).dropWhile pathChar = '?' :: q := by
        rw [show ('/' :: (u ++ '?' :: q)) = ('/' :: u) ++ '?' :: q from rfl,
          dropWhile_append_all _ _ hpu, @dropWhile_cons_neg pathChar '?' q (by decide)]
      rw [htw, hdw, if_pos hnd', parseQuery_query q hq]
      rfl

theorem stripSlash_id_of_not_slash {l : List Char} (h : l.getLast? ≠ some '/') :
    stripSlash l = l := by
  unfold stripSlash
  rw [if_neg h]

theorem lowerStr_append (X Y : List Char) :
    lowerStr (X ++ Y) = lowerStr X ++ lowerStr Y :=
  List.map_append lowerChar X Y

theorem goodPath_some {cs : List Char} {p : UrlParts} (hp : parseUrl cs = some p) :
    goodPath cs = !((stripSlash p.path).getLast? == some '/') := by
  unfold goodPath
  rw [hp]

theorem goodPath_none {cs : List Char} (hp : parseUrl cs = none) :
    goodPath cs = false := by
  unfold goodPath
  rw [hp]

theorem normalizeUrlCs_none {cs : List Char} (hp : parseUrl cs = none) :
    normalizeUrlCs cs = cs := by
  unfold normalizeUrlCs
  rw [hp]

theorem normalizeUrlCs_some {cs sc hs pa q : List Char}
    (hp : parseUrl cs = some ⟨sc, hs, pa, q⟩) :
    normalizeUrlCs cs =
      (if q.isEmpty then
        stripSlash (lowerStr (sc ++ [':', '/', '/'] ++ hs ++ pa))
      else
        stripSlash (lowerStr (sc ++ [':', '/', '/'] ++ hs ++ pa)) ++ '?' :: q) := by
  unfold normalizeUrlCs
  rw [hp]

/-- On the `goodPath` domain one pass of `normalizeUrlCs` is a fixed point
of a second pass. -/
theorem normalizeUrlCs_idem (cs : List Char) (hgood : goodPath cs = true) :
    normalizeUrlCs (normalizeUrlCs cs) = normalizeUrlCs cs := by
  cases hp : parseUrl cs with
  | none =>
    rw [goodPath_none hp] at hgood
    exact Bool.noConfusion hgood
  | some p =>
    obtain ⟨hsc1, hsc2, hh1, hh2, hpa1, hpa2, hnds, hqall⟩ := parseUrl_shape hp
    have hgood2 : (stripSlash p.path).getLast? ≠ some '/' := by
      rw [goodPath_some hp] at hgood
      simpa using hgood
    have hpne : p.path ≠ [] := by
      obtain ⟨t, ht⟩ := hpa1
      rw [ht]
      exact List.cons_ne_nil _ _
    have hlne : lowerStr p.path ≠ [] := lowerStr_ne_nil hpne
    have hp' : parseUrl cs = some ⟨p.scheme, p.host, p.path, p.query⟩ := by
      rw [hp]
    have hd : lowerStr (p.scheme ++ [':', '/', '/'] ++ p.host ++ p.path) =
        lowerStr p.scheme ++ [':', '/', '/'] ++ lowerStr p.host ++ lowerStr p.path := by
      rw [lowerStr_append, lowerStr_append, lowerStr_append,
        show lowerStr [':', '/', '/'] = [':', '/', '/'] from by decide]
    have h1 : normalizeUrlCs cs =
        (lowerStr p.scheme ++ [':', '/', '/'] ++ lowerStr p.host ++
          stripSlash (lowerStr p.path)) ++
          (if p.query.isEmpty then [] else '?' :: p.query) := by
      rw [normalizeUrlCs_some hp', hd, stripSlash_append _ _ hlne]
      by_cases hqe : p.query.isEmpty = true
      · rw [if_pos hqe, if_pos hqe, List.append_nil]
      · rw [if_neg hqe, if_neg hqe]
    have hsc1' : lowerStr p.scheme ≠ [] := lowerStr_ne_nil hsc1
    have hsc2' : (lowerStr p.scheme).all Char.isAlpha = true :=
      all_lowerStr (fun c hc => isAlpha_toLower hc) hsc2
    have hh1' : lowerStr p.host ≠ [] := lowerStr_ne_nil hh1
    have hh2' : (lowerStr p.host).all hostChar = true :=
      all_lowerStr (fun c hc => hostChar_toLower hc) hh2
    have hpa1' : ∃ t, lowerStr p.path = '/' :: t := by
      obtain ⟨t, ht⟩ := hpa1
      refine ⟨lowerStr t, ?_⟩
      rw [ht]
      rfl
    have hpa2' : (lowerStr p.path).all pathChar = true :=
      all_lowerStr (fun c hc => pathChar_toLower hc) hpa2
    have hndl : noSlashDot (lowerStr p.path) = true := by
      rw [noSlashDot_lowerStr]
      exact hnds
    have hp2 := parseUrl_norm (lowerStr p.scheme) (lowerStr p.host) (lowerStr p.path)
      p.query hsc1' hsc2' hh1' hh2' hpa1' hpa2' hndl hqall
    rw [h1, normalizeUrlCs_some hp2]
    have hgood3 : (stripSlash (lowerStr p.path)).getLast? ≠ some '/' := by
      rw [stripSlash_lowerStr]
      intro hc
      exact hgood2 ((lowerStr_ends_slash_iff _).mp hc)
    have hkey : stripSlash (lowerStr (lowerStr p.scheme ++ [':', '/', '/'] ++
        lowerStr p.host ++
        (if (stripSlash (lowerStr p.path)).isEmpty then ['/']
          else stripSlash (lowerStr p.path)))) =
        lowerStr p.scheme ++ [':', '/', '/'] ++ lowerStr p.host ++
          stripSlash (lowerStr p.path) := by
      by_cases hemp : (stripSlash (lowerStr p.path)).isEmpty = true
      · rw [if_pos hemp]
        have he : stripSlash (lowerStr p.path) = [] := by
          rwa [List.isEmpty_iff] at hemp
        rw [he, List.append_nil]
        have hd2 : lowerStr (lowerStr p.scheme ++ [':', '/', '/'] ++
            lowerStr p.host ++ ['/']) =
            lowerStr p.scheme ++ [':', '/', '/'] ++ lowerStr p.host ++ ['/'] := by
          rw [lowerStr_append, lowerStr_append, lowerStr_append, lowerStr_lowerStr,
            lowerStr_lowerStr,
            show lowerStr [':', '/', '/'] = [':', '/', '/'] from by decide,
            show lowerStr ['/'] = ['/'] from by decide]
        rw [hd2, stripSlash_append _ _ (List.cons_ne_nil _ _),
          show stripSlash ['/'] = [] from by decide, List.append_nil]
      · rw [if_neg hemp]
        have hne2 : stripSlash (lowerStr p.path) ≠ [] := by
          intro hc
          rw [hc] at hemp
          exact hemp rfl
        have hlow : lowerStr (stripSlash (lowerStr p.path)) =
            stripSlash (lowerStr p.path) := by
          rw [stripSlash_lowerStr, lowerStr_lowerStr, ← stripSlash_lowerStr]
        have hd3 : lowerStr (lowerStr p.scheme ++ [':', '/', '/'] ++
            lowerStr p.host ++ stripSlash (lowerStr p.path)) =
            lowerStr p.scheme ++ [':', '/', '/'] ++ lowerStr p.host ++
              stripSlash (lowerStr p.path) := by
          rw [lowerStr_append, lowerStr_append, lowerStr_append, lowerStr_lowerStr,
            lowerStr_lowerStr, hlow,
            show lowerStr [':', '/', '/'] = [':', '/', '/'] from by decide]
        rw [hd3, stripSlash_append _ _ hne2, stripSlash_id_of_not_slash hgood3]
    rw [hkey]
    by_cases hqe : p.query.isEmpty = true
    · rw [if_pos hqe, if_pos hqe, List.append_nil]
    · rw [if_neg hqe, if_neg hqe]

/-! ## Claim theorems -/

/-- C2: along any strictly time-ordered trace of `addPage` and `getPage`
calls against a fresh `PageCache` of positive capacity, the index size
never exceeds the capacity, and every capacity eviction removes an entry
whose `lastAccessed` is minimal among the entries present at that call
(both `addPage` and `getPage` hits having refreshed `lastAccessed`). -/
theorem pageCache_lru_bounded_and_evicts_lru (max ttl : Nat)
    (ops : List (PCOp × Nat)) (hmax : 0 < max)
    (hchain : List.Chain' (· < ·) (ops.map (·.2))) :
    (runPageCache (PageCache.mk' max ttl) ops).1.getSize ≤ max ∧
    ∀ pr ∈ (runPageCache (PageCache.mk' max ttl) ops).2, ∀ x ∈ pr.1,
      pr.2.2.1.lastAccessed ≤ x.2.1.lastAccessed := by
  have h := runPageCache_inv ops (PageCache.mk' max ttl)
    List.Pairwise.nil hmax (Nat.zero_le max) hchain
    (fun t _ x hx => absurd hx (List.not_mem_nil x))
  exact h

/-- C2 witness: the spec scenario — capacity 2, inserts at times 1, 2, 3 —
stays within bound and evicts the entry for the first URL, whose
`lastAccessed` is minimal. -/
theorem pageCache_lru_bounded_and_evicts_lru_witness :
    (runPageCache (PageCache.mk' 2 1000)
      [(PCOp.add "https://a.test/a" 1 "b" "p1", 1),
       (PCOp.add "https://a.test/b" 2 "b" "p2", 2),
       (PCOp.add "https://a.test/c" 3 "b" "p3", 3)]).1.getSize ≤ 2 ∧
    ∀ pr ∈ (runPageCache (PageCache.mk' 2 1000)
      [(PCOp.add "https://a.test/a" 1 "b" "p1", 1),
       (PCOp.add "https://a.test/b" 2 "b" "p2", 2),
       (PCOp.add "https://a.test/c" 3 "b" "p3", 3)]).2, ∀ x ∈ pr.1,
      pr.2.2.1.lastAccessed ≤ x.2.1.lastAccessed :=
  pageCache_lru_bounded_and_evicts_lru 2 1000
    [(PCOp.add "https://a.test/a" 1 "b" "p1", 1),
     (PCOp.add "https://a.test/b" 2 "b" "p2", 2),
     (PCOp.add "https://a.test/c" 3 "b" "p3", 3)]
    (by decide) (by simp [List.chain'_cons])

/-- C3 counterexample: `normalizeUrl` is not idempotent on all valid URLs.
`https://a.com//` parses (path `//`), normalizes to `https://a.com/`
(only one trailing slash is stripped), and a second application strips the
remaining slash, yielding `https://a.com`. -/
theorem normalizeUrl_not_idempotent_cex :
    normalizeUrl "https://a.com//" = "https://a.com/" ∧
    normalizeUrl (normalizeUrl "https://a.com//") = "https://a.com" ∧
    normalizeUrl (normalizeUrl "https://a.com//") ≠ normalizeUrl "https://a.com//" :=
  ⟨by decide, by decide, by decide⟩

/-- C3 (amended): `normalizeUrl` is idempotent on every URL of the
modelled grammar (`scheme://host[path][?query][#fragment]` over the
modelled character classes, with no dot-segments, ports or
percent-escapes) whose parsed path does not still end in a slash after one
trailing slash is stripped (equivalently, the path does not end in `//`);
it identifies URLs differing only by letter case in origin/path or by a
single trailing slash
(`normalizeUrl "https://A.com/x/" = normalizeUrl "https://a.com/x"`), and
appends the query string verbatim, not canonicalized.  Strings outside the
modelled grammar are excluded by the `goodPath` hypothesis (which demands
parse success), so no idempotence is asserted where the model's fallback
could diverge from `new URL` — e.g. `https://a.com/x.y//` now parses here,
falls outside `goodPath`, and indeed is not a fixed point. -/
theorem normalizeUrl_idempotent_amended (s : String)
    (hgood : goodPath s.data = true) :
    normalizeUrl (normalizeUrl s) = normalizeUrl s ∧
    normalizeUrl "https://A.com/x/" = normalizeUrl "https://a.com/x" ∧
    normalizeUrl "https://a.com/x?B=1&A=2" = "https://a.com/x?B=1&A=2" :=
  ⟨congrArg (fun l => (⟨l⟩ : String)) (normalizeUrlCs_idem s.data hgood),
    by decide, by decide⟩

theorem normalizeUrl_idempotent_amended_witness :
    goodPath ("https://A.com/x/").data = true ∧
    (normalizeUrl (normalizeUrl "https://A.com/x/") = normalizeUrl "https://A.com/x/" ∧
      normalizeUrl "https://A.com/x/" = normalizeUrl "https://a.com/x" ∧
      normalizeUrl "https://a.com/x?B=1&A=2" = "https://a.com/x?B=1&A=2") :=
  ⟨by decide, normalizeUrl_idempotent_amended "https://A.com/x/" (by decide)⟩

/-- C6: a sweep run leaves no registry entry that is both active and idle
beyond the timeout, and every entry it removes was active and idle beyond
the timeout. -/
theorem idle_sweep_reclaims_exactly_idle (p : BrowserPool) (now : Nat)
    (hnd : keysNodup p.browserInstances) :
    (∀ x ∈ (p.cleanupIdleBrowsers now).browserInstances,
        x.2.isActive = true → now - x.2.getLastUsed ≤ idleTimeoutMs) ∧
    (∀ x ∈ p.browserInstances,
        x ∉ (p.cleanupIdleBrowsers now).browserInstances →
        x.2.isActive = true ∧ now - x.2.getLastUsed > idleTimeoutMs) := by
  have hrun : p.cleanupIdleBrowsers now =
      (p.browserInstances.map (·.1)).foldl (sweepStep now) p := rfl
  constructor
  · intro x hx hact
    rw [hrun] at hx
    have hnb := sweepFold_no_bad (p.browserInstances.map (·.1)) p hnd
      (fun y hy => Or.inl (List.mem_map.mpr ⟨y, hy, rfl⟩)) x hx
    by_contra hlt
    exact hnb ⟨hact, by omega⟩
  · intro x hx hnx
    rw [hrun] at hnx
    exact sweepFold_removed (p.browserInstances.map (·.1)) p x hnd hx hnx

/-- C6 witness: at `now = 600000` the sweep of a registry holding an active
instance idle since 0 and an active instance used at 400000 removes exactly
the first. -/
theorem idle_sweep_reclaims_exactly_idle_witness :
    (∀ x ∈ (((⟨[("b1", ⟨some 1, [], 0⟩), ("b2", ⟨some 2, [], 400000⟩)], none⟩ :
          BrowserPool)).cleanupIdleBrowsers 600000).browserInstances,
        x.2.isActive = true → 600000 - x.2.getLastUsed ≤ idleTimeoutMs) ∧
    (∀ x ∈ (⟨[("b1", ⟨some 1, [], 0⟩), ("b2", ⟨some 2, [], 400000⟩)], none⟩ :
          BrowserPool).browserInstances,
        x ∉ (((⟨[("b1", ⟨some 1, [], 0⟩), ("b2", ⟨some 2, [], 400000⟩)], none⟩ :
          BrowserPool)).cleanupIdleBrowsers 600000).browserInstances →
        x.2.isActive = true ∧ 600000 - x.2.getLastUsed > idleTimeoutMs) :=
  idle_sweep_reclaims_exactly_idle
    (⟨[("b1", ⟨some 1, [], 0⟩), ("b2", ⟨some 2, [], 400000⟩)], none⟩ : BrowserPool)
    600000 (by unfold keysNodup; simp)

/-- C10: the sweep never removes a registry entry whose instance is
inactive — one sweep and any iterated sequence of sweeps keep it, however
old its `lastUsed` — while an explicit `closeBrowserInstance` removes it
and `closeAll` empties the registry. -/
theorem idle_sweep_spares_inactive (p : BrowserPool) (browserId : String)
    (inst : BrowserInstance) (now : Nat) (times : List Nat)
    (hget : mapGet p.browserInstances browserId = some inst)
    (hinactive : inst.isActive = false) :
    mapGet ((p.cleanupIdleBrowsers now).browserInstances) browserId = some inst ∧
    mapGet ((times.foldl (fun q t => q.cleanupIdleBrowsers t) p).browserInstances)
      browserId = some inst ∧
    mapGet ((p.closeBrowserInstance browserId).browserInstances) browserId = none ∧
    (p.closeAll).browserInstances = [] := by
  refine ⟨?_, ?_, ?_, ?_⟩
  · exact sweepFold_inactive_preserved _ p browserId inst hget hinactive
  · exact sweepIter_inactive_preserved times p browserId inst hget hinactive
  · unfold BrowserPool.closeBrowserInstance
    rw [hget]
    exact mapGet_mapDelete_self _ _
  · rfl

/-- C10 witness: an inactive instance last used at time 0 survives sweeps
at 600000 and then 1200000. -/
theorem idle_sweep_spares_inactive_witness :
    mapGet (((⟨[("b1", ⟨none, [], 0⟩)], none⟩ :
        BrowserPool).cleanupIdleBrowsers 600000).browserInstances) "b1" =
      some ⟨none, [], 0⟩ ∧
    mapGet ((([600000, 1200000] : List Nat).foldl (fun q t => q.cleanupIdleBrowsers t)
        (⟨[("b1", ⟨none, [], 0⟩)], none⟩ : BrowserPool)).browserInstances) "b1" =
      some ⟨none, [], 0⟩ ∧
    mapGet (((⟨[("b1", ⟨none, [], 0⟩)], none⟩ :
        BrowserPool).closeBrowserInstance "b1").browserInstances) "b1" = none ∧
    ((⟨[("b1", ⟨none, [], 0⟩)], none⟩ : BrowserPool).closeAll).browserInstances = [] :=
  idle_sweep_spares_inactive (⟨[("b1", ⟨none, [], 0⟩)], none⟩ : BrowserPool) "b1"
    ⟨none, [], 0⟩ 600000 [600000, 1200000] (by decide) (by decide)


/-- C1: an entry inserted with TTL `T` (into `PageCache` via `addPage`, or
into `ResponseCache` via `set`) is reported absent by a lookup issued at
any time strictly later than insertion time plus `T`, with no sweep having
run in between. -/
theorem expired_entry_lookup_absent {α : Type} (pc : PageCache) (url : String)
    (page : Nat) (browserId pageId : String) (t0 t1 : Nat)
    (rc : ResponseCache α) (key : String) (v : α) (ttl : Option Nat) (t2 t3 : Nat)
    (hpttl : 0 < pc.cache.ttl) (hpt : t0 + pc.cache.ttl < t1)
    (hrt : t2 + rc.effTtl ttl < t3) :
    (((pc.addPage url page browserId pageId t0).2.1).getPage url t1).1 = none ∧
    (((rc.set key v ttl t2).2).get key t3).1 = none := by
  constructor
  · have hf := lruSet_find_self pc.cache (normalizeUrl url)
      ⟨page, url, t0, browserId, pageId⟩ t0
    have ht := lruSet_ttl pc.cache (normalizeUrl url)
      ⟨page, url, t0, browserId, pageId⟩ t0
    have hstale : lruIsStale pc.cache.ttl t0 t1 = true := by
      simp only [lruIsStale, Bool.and_eq_true, bne_iff_ne, ne_eq, decide_eq_true_eq]
      omega
    simp only [PageCache.addPage, PageCache.getPage, hf, ht, hstale, if_true]
  · by_cases he : rc.enabled
    · have hf := lruSet_find_self rc.cache key ⟨v, t2, t2 + rc.effTtl ttl⟩ t2
      have ht := lruSet_ttl rc.cache key ⟨v, t2, t2 + rc.effTtl ttl⟩ t2
      simp only [ResponseCache.set, he, Bool.not_true, Bool.false_eq_true, if_false]
      simp only [ResponseCache.get, he, Bool.not_true, Bool.false_eq_true, if_false,
        lruGet, hf, ht]
      by_cases hs : lruIsStale rc.cache.ttl t2 t3
      · simp [hs]
      · simp only [hs, Bool.false_eq_true, if_false]
        have : t3 > t2 + rc.effTtl ttl := hrt
        simp [this]
    · simp only [Bool.not_eq_true] at he
      simp [ResponseCache.set, ResponseCache.get, he]

/-- C1 witness: a `PageCache` with TTL 1000 and a `ResponseCache` with
default TTL 500, entries inserted at time 0, looked up at times 1001 and
501 respectively. -/
theorem expired_entry_lookup_absent_witness :
    ((((PageCache.mk' 20 1000).addPage "https://a.com/x" 7 "b" "p" 0).2.1).getPage
        "https://a.com/x" 1001).1 = none ∧
    ((((⟨true, ⟨100, 500, []⟩⟩ : ResponseCache Nat).set "k" 42 none 0).2).get
        "k" 501).1 = none :=
  expired_entry_lookup_absent (PageCache.mk' 20 1000) "https://a.com/x" 7 "b" "p" 0 1001
    (⟨true, ⟨100, 500, []⟩⟩ : ResponseCache Nat) "k" 42 none 0 501
    (by decide) (by decide) (by decide)

/-- C4 counterexample: with an expired entry cached for the URL, a
`getPageForUrl` whose navigation fails changes the `PageCache` contents —
the lookup purges the stale entry, dropping the size from 1 to 0 — so the
claim that the cache is unchanged on the failure path is false as stated. -/
theorem failed_getPageForUrl_purges_stale_entry_cex :
    ((⟨[], some ((PageCache.mk' 20 1000).addPage "https://a.com/x" 7 "b" "p" 0).2.1⟩ :
        BrowserPool).getPageForUrl "b2" "p2" "https://a.com/x" 5000 false true 10 11
        false).1 = Except.error "Navigation failed" ∧
    (⟨[], some ((PageCache.mk' 20 1000).addPage "https://a.com/x" 7 "b" "p" 0).2.1⟩ :
        BrowserPool).getCachedPageCount = 1 ∧
    ((⟨[], some ((PageCache.mk' 20 1000).addPage "https://a.com/x" 7 "b" "p" 0).2.1⟩ :
        BrowserPool).getPageForUrl "b2" "p2" "https://a.com/x" 5000 false true 10 11
        false).2.getCachedPageCount = 0 := by
  refine ⟨rfl, rfl, rfl⟩

/-- C4 (amended): a failed `getPageForUrl` creates no `PageCache` entry for
the URL — registration runs only after a successful navigation — and the
resulting cache index is a sub-list of the prior one, the only possible
change being the lookup dropping an already-expired entry under that URL's
key; when the cache holds no entry under that key, the `PageCache` is
unchanged. -/
theorem failed_getPageForUrl_adds_no_entry (p : BrowserPool)
    (browserId pageId url : String) (now : Nat) (bypassCache launchOk : Bool)
    (freshBrowser freshPage : Nat) (gotoOk : Bool) (e : String)
    (herr : (p.getPageForUrl browserId pageId url now bypassCache launchOk
      freshBrowser freshPage gotoOk).1 = .error e) :
    (poolCacheEntries (p.getPageForUrl browserId pageId url now bypassCache launchOk
      freshBrowser freshPage gotoOk).2).Sublist (poolCacheEntries p) ∧
    (∀ pc1, p.pageCache = some pc1 →
      pc1.cache.entries.find? (fun en => en.1 == normalizeUrl url) = none →
      (p.getPageForUrl browserId pageId url now bypassCache launchOk freshBrowser
        freshPage gotoOk).2.pageCache = p.pageCache) := by
  cases hpc : p.pageCache with
  | none =>
    have hcall : p.getPageForUrl browserId pageId url now bypassCache launchOk
        freshBrowser freshPage gotoOk =
        BrowserPool.fetchPageForUrl p browserId pageId url now bypassCache launchOk
          freshBrowser freshPage gotoOk := by
      unfold BrowserPool.getPageForUrl
      rw [hpc]
    rw [hcall] at herr ⊢
    have hfe := fetchPageForUrl_error_pageCache p browserId pageId url now bypassCache
      launchOk freshBrowser freshPage gotoOk e herr
    refine ⟨by rw [poolCacheEntries_congr hfe], fun pc1 hcontra _ => absurd hcontra (by simp)⟩
  | some pc0 =>
    cases bypassCache with
    | true =>
      have hcall : p.getPageForUrl browserId pageId url now true launchOk
          freshBrowser freshPage gotoOk =
          BrowserPool.fetchPageForUrl p browserId pageId url now true launchOk
            freshBrowser freshPage gotoOk := by
        unfold BrowserPool.getPageForUrl
        rw [hpc]
      rw [hcall] at herr ⊢
      have hfe := fetchPageForUrl_error_pageCache p browserId pageId url now true
        launchOk freshBrowser freshPage gotoOk e herr
      have hfe2 : (BrowserPool.fetchPageForUrl p browserId pageId url now true
          launchOk freshBrowser freshPage gotoOk).2.pageCache = some pc0 := by
        rw [hfe, hpc]
      refine ⟨by rw [poolCacheEntries_congr hfe], fun pc1 _ _ => hfe2⟩
    | false =>
      rw [getPageForUrl_some_nobypass p pc0 browserId pageId url now launchOk
        freshBrowser freshPage gotoOk hpc] at herr ⊢
      cases hhit : (pc0.getPage url now).1 with
      | some entry =>
        rw [hhit] at herr
        simp at herr
      | none =>
        rw [hhit] at herr
        have herr2 : (BrowserPool.fetchPageForUrl
            { p with pageCache := some (pc0.getPage url now).2 } browserId pageId url
            now false launchOk freshBrowser freshPage gotoOk).1 = .error e := herr
        have hfe := fetchPageForUrl_error_pageCache
          { p with pageCache := some (pc0.getPage url now).2 } browserId pageId url
          now false launchOk freshBrowser freshPage gotoOk e herr2
        constructor
        · show (poolCacheEntries (BrowserPool.fetchPageForUrl
              { p with pageCache := some (pc0.getPage url now).2 } browserId pageId
              url now false launchOk freshBrowser freshPage gotoOk).2).Sublist
            (poolCacheEntries p)
          rw [poolCacheEntries_congr hfe]
          have hpe : poolCacheEntries p = pc0.cache.entries := by
            unfold poolCacheEntries
            rw [hpc]
          have hpe2 : poolCacheEntries
              { p with pageCache := some (pc0.getPage url now).2 } =
              (pc0.getPage url now).2.cache.entries := rfl
          rw [hpe, hpe2]
          exact pageCache_getPage_miss_sublist pc0 url now hhit
        · intro pc1 hpc1 hfind
          show (BrowserPool.fetchPageForUrl
              { p with pageCache := some (pc0.getPage url now).2 } browserId pageId
              url now false launchOk freshBrowser freshPage gotoOk).2.pageCache =
            some pc0
          rw [hfe]
          show some (pc0.getPage url now).2 = some pc0
          have hfind0 : pc0.cache.entries.find?
              (fun en => en.1 == normalizeUrl url) = none := by
            rw [← Option.some_inj.mp hpc1] at hfind
            exact hfind
          rw [pageCache_getPage_none pc0 url now hfind0]

/-- C4 witness: with an empty page cache, a failed navigation leaves the
cache exactly as it was. -/
theorem failed_getPageForUrl_adds_no_entry_witness :
    (poolCacheEntries ((⟨[], some (PageCache.mk' 20 1000)⟩ :
        BrowserPool).getPageForUrl "b2" "p2" "https://a.com/x" 5000 false true 10 11
        false).2).Sublist
      (poolCacheEntries (⟨[], some (PageCache.mk' 20 1000)⟩ : BrowserPool)) ∧
    (∀ pc1, (⟨[], some (PageCache.mk' 20 1000)⟩ : BrowserPool).pageCache = some pc1 →
      pc1.cache.entries.find? (fun en => en.1 == normalizeUrl "https://a.com/x") =
        none →
      ((⟨[], some (PageCache.mk' 20 1000)⟩ : BrowserPool).getPageForUrl "b2" "p2"
        "https://a.com/x" 5000 false true 10 11 false).2.pageCache =
        (⟨[], some (PageCache.mk' 20 1000)⟩ : BrowserPool).pageCache) :=
  failed_getPageForUrl_adds_no_entry (⟨[], some (PageCache.mk' 20 1000)⟩ : BrowserPool)
    "b2" "p2" "https://a.com/x" 5000 false true 10 11 false "Navigation failed"
    rfl

/-- C5: closing, via the pool, the only page of a registered
`BrowserInstance` closes that instance and removes it from the registry, so
`getBrowserCount()` drops by one. -/
theorem closePage_last_page_removes_instance (p : BrowserPool)
    (browserId pageId : String) (inst : BrowserInstance) (pg : Nat)
    (hnd : keysNodup p.browserInstances)
    (hget : mapGet p.browserInstances browserId = some inst)
    (hpages : inst.pages = [(pageId, pg)]) :
    (p.closePage browserId pageId).getBrowserCount + 1 = p.getBrowserCount ∧
    mapGet (p.closePage browserId pageId).browserInstances browserId = none := by
  have hclosed : inst.closePage pageId = { inst with pages := [] } := by
    unfold BrowserInstance.closePage
    rw [hpages]
    simp [mapGet_cons, mapDelete_cons, mapDelete]
  have hcount : (inst.closePage pageId).getPageCount = 0 := by
    rw [hclosed]
    rfl
  unfold BrowserPool.closePage
  rw [hget]
  simp only [hcount, if_true]
  unfold BrowserPool.closeBrowserInstance
  rw [mapGet_mapSet_self]
  simp only [BrowserPool.getBrowserCount]
  constructor
  · rw [length_mapDelete_nodup (keysNodup_mapSet browserId _ hnd)
      (mapGet_mapSet_self p.browserInstances browserId (inst.closePage pageId))]
    exact length_mapSet_mem _ (by rw [hget]; rfl)
  · exact mapGet_mapDelete_self _ _

/-- C5 witness: a two-instance registry; closing the only page of `b1`
drops the count from 2 to 1 and removes `b1`. -/
theorem closePage_last_page_removes_instance_witness :
    ((⟨[("b1", ⟨some 1, [("p", 2)], 0⟩), ("b2", ⟨some 5, [("q", 6)], 0⟩)], none⟩ :
        BrowserPool).closePage "b1" "p").getBrowserCount + 1 =
      (⟨[("b1", ⟨some 1, [("p", 2)], 0⟩), ("b2", ⟨some 5, [("q", 6)], 0⟩)], none⟩ :
        BrowserPool).getBrowserCount ∧
    mapGet ((⟨[("b1", ⟨some 1, [("p", 2)], 0⟩), ("b2", ⟨some 5, [("q", 6)], 0⟩)], none⟩ :
        BrowserPool).closePage "b1" "p").browserInstances "b1" = none :=
  closePage_last_page_removes_instance
    (⟨[("b1", ⟨some 1, [("p", 2)], 0⟩), ("b2", ⟨some 5, [("q", 6)], 0⟩)], none⟩ :
      BrowserPool)
    "b1" "p" ⟨some 1, [("p", 2)], 0⟩ 2
    (by unfold keysNodup; simp) (by decide) (by decide)

/-- C7: once the registry has reached the configured maximum,
`canCreateNewBrowser()` is false, yet `getPage` with a fresh pool id still
creates and registers a new instance, pushing the registry past the cap. -/
theorem soft_cap_not_enforced (p : BrowserPool) (maxInstances : Nat)
    (browserId pageId : String) (now : Nat) (launchOk : Bool)
    (freshBrowser freshPage : Nat)
    (hfull : p.getBrowserCount = maxInstances)
    (hfresh : mapGet p.browserInstances browserId = none) :
    p.canCreateNewBrowser maxInstances = false ∧
    (p.getPage browserId pageId now launchOk freshBrowser freshPage).2.getBrowserCount =
      maxInstances + 1 ∧
    (mapGet (p.getPage browserId pageId now launchOk freshBrowser
        freshPage).2.browserInstances browserId).isSome = true := by
  refine ⟨?_, ?_, ?_⟩
  · simp only [BrowserPool.canCreateNewBrowser, BrowserPool.getBrowserCount] at hfull ⊢
    simp [hfull]
  · simp only [BrowserPool.getPage, BrowserPool.getBrowserInstance, hfresh,
      BrowserPool.getBrowserCount]
    rw [length_mapSet_mem _ (by rw [mapGet_mapSet_self]; rfl)]
    rw [length_mapSet_not_mem _ hfresh]
    simp only [BrowserPool.getBrowserCount] at hfull
    omega
  · simp only [BrowserPool.getPage, BrowserPool.getBrowserInstance, hfresh]
    rw [mapGet_mapSet_self]
    rfl

/-- C7 witness: a one-instance registry with `maxInstances = 1`;
`canCreateNewBrowser` is false, yet `getPage` under the fresh id `b2`
registers a second instance. -/
theorem soft_cap_not_enforced_witness :
    (⟨[("b1", ⟨some 1, [("p", 2)], 0⟩)], none⟩ : BrowserPool).canCreateNewBrowser 1 =
      false ∧
    ((⟨[("b1", ⟨some 1, [("p", 2)], 0⟩)], none⟩ : BrowserPool).getPage "b2" "p" 5 true
        3 4).2.getBrowserCount = 1 + 1 ∧
    (mapGet ((⟨[("b1", ⟨some 1, [("p", 2)], 0⟩)], none⟩ : BrowserPool).getPage "b2" "p"
        5 true 3 4).2.browserInstances "b2").isSome = true :=
  soft_cap_not_enforced (⟨[("b1", ⟨some 1, [("p", 2)], 0⟩)], none⟩ : BrowserPool) 1
    "b2" "p" 5 true 3 4 (by decide) (by decide)

/-- C8: on a disabled `ResponseCache`, `getOrExecute` invokes the
computation exactly once and returns its result with the store untouched,
and `get`, `has` and `set` are inert. -/
theorem responseCache_disabled_passthrough {α : Type} (rc : ResponseCache α)
    (key : String) (v : α) (ttl : Option Nat) (now : Nat)
    (h : rc.enabled = false) :
    rc.getOrExecute key v ttl now = (v, rc, 1) ∧
    rc.get key now = (none, rc) ∧
    rc.has key now = (false, rc) ∧
    rc.set key v ttl now = (key, rc) := by
  refine ⟨?_, ?_, ?_, ?_⟩ <;>
    simp [ResponseCache.getOrExecute, ResponseCache.get, ResponseCache.has,
      ResponseCache.set, h]

/-- C8 witness: a disabled cache with an empty store. -/
theorem responseCache_disabled_passthrough_witness :
    (⟨false, ⟨100, 500, []⟩⟩ : ResponseCache Nat).getOrExecute "k" 42 none 7 =
      (42, (⟨false, ⟨100, 500, []⟩⟩ : ResponseCache Nat), 1) ∧
    (⟨false, ⟨100, 500, []⟩⟩ : ResponseCache Nat).get "k" 7 =
      (none, (⟨false, ⟨100, 500, []⟩⟩ : ResponseCache Nat)) ∧
    (⟨false, ⟨100, 500, []⟩⟩ : ResponseCache Nat).has "k" 7 =
      (false, (⟨false, ⟨100, 500, []⟩⟩ : ResponseCache Nat)) ∧
    (⟨false, ⟨100, 500, []⟩⟩ : ResponseCache Nat).set "k" 42 none 7 =
      ("k", (⟨false, ⟨100, 500, []⟩⟩ : ResponseCache Nat)) :=
  responseCache_disabled_passthrough (⟨false, ⟨100, 500, []⟩⟩ : ResponseCache Nat)
    "k" 42 none 7 (by decide)

/-- C9: run on the shared operations from their (empty) initial states, the
caching pool with page caching disabled and the non-caching pool produce
the same `getPage` results, the same registry, and the same values of the
observers `getBrowserCount` and `canCreateNewBrowser`. -/
theorem pools_observationally_equivalent (ops : List PoolOp) :
    (runPool ⟨[], none⟩ ops).1.browserInstances =
      (runPoolPlain ⟨[]⟩ ops).1.browserInstances ∧
    (runPool ⟨[], none⟩ ops).2 = (runPoolPlain ⟨[]⟩ ops).2 ∧
    (runPool ⟨[], none⟩ ops).1.getBrowserCount =
      (runPoolPlain ⟨[]⟩ ops).1.getBrowserCount ∧
    ∀ m, (runPool ⟨[], none⟩ ops).1.canCreateNewBrowser m =
      (runPoolPlain ⟨[]⟩ ops).1.canCreateNewBrowser m := by
  obtain ⟨h1, h2⟩ := runPool_corr ops ⟨[], none⟩ ⟨[]⟩ rfl
  refine ⟨h1, h2, ?_, ?_⟩
  · show (runPool ⟨[], none⟩ ops).1.browserInstances.length =
      (runPoolPlain ⟨[]⟩ ops).1.browserInstances.length
    rw [h1]
  · intro m
    show decide ((runPool ⟨[], none⟩ ops).1.browserInstances.length < m) =
      decide ((runPoolPlain ⟨[]⟩ ops).1.browserInstances.length < m)
    rw [h1]

end Inspecta
